import Mathlib

/-!
Verification of the crud-v2-to-unified test-format converter (src/main.rs).

Part 1 models the post-serialization placeholder resolver: the placeholder
string constants (main.rs lines 549-571), the ordered substitution table
REGEX_PLACEHOLDER_REPLACEMENTS (lines 573-601) and the substitution loop in
convert (lines 691-702).  Rendered text is modelled as List Char.  The two
regex rules of the table capture a digit group; all other rules are literal
substitutions, so Regex::replace_all is modelled by a leftmost,
non-overlapping scan.
-/

set_option maxHeartbeats 4000000

namespace V2U

/-!
Definitions: a shallow embedding of src/main.rs — the placeholder constants
and substitution rules, the legacy (crud_v2) and unified models, the
deserializers, and the conversion engine — together with the decidable
predicates and concrete inputs the theorems below refer to.
-/

def CLIENT_DEFINITION_PLACEHOLDER : List Char := "xCLIENT_DEFINITION_PLACEHOLDER".data

def CLIENT_DEREF_PLACEHOLDER : List Char := "xCLIENT_DEREF_PLACEHOLDER".data

def DATABASE_DEFINITION_PLACEHOLDER : List Char := "xDATABASE_DEFINITION_PLACEHOLDER".data

def DATABASE_DEREF_PLACEHOLDER : List Char := "xDATABASE_DEREF_PLACEHOLDER".data

def DATABASE_NAME_DEFINITION_PLACEHOLDER : List Char :=
  "xDATABASE_NAME_DEFINITION_PLACEHOLDER".data

def DATABASE_NAME_DEREF_PLACEHOLDER : List Char := "xDATABASE_NAME_DEREF_PLACEHOLDER".data

def COLLECTION_DEFINITION_PLACEHOLDER : List Char := "xCOLLECTION_DEFINITION_PLACEHOLDER".data

def COLLECTION_DEREF_PLACEHOLDER : List Char := "xCOLLECTION_DEREF_PLACEHOLDER".data

-- note: in the source this is the one placeholder without the leading x

def COLLECTION_NAME_DEFINITION_PLACEHOLDER : List Char :=
  "COLLECTION_NAME_DEFINITION_PLACEHOLDER".data

def COLLECTION_NAME_DEREF_PLACEHOLDER : List Char := "xCOLLECTION_NAME_DEREF_PLACEHOLDER".data

def SETUP_CLIENT_DEFINITION_PLACEHOLDER : List Char :=
  "xSETUP_CLIENT_DEFINITION_PLACEHOLDER".data

def SETUP_CLIENT_DEREF_PLACEHOLDER : List Char := "xSETUP_CLIENT_DEREF_PLACEHOLDER".data

def ADMIN_DATABASE_DEFINITION_PLACEHOLDER : List Char :=
  "xADMIN_DATABASE_DEFINITION_PLACEHOLDER".data

def ADMIN_DATABASE_DEREF_PLACEHOLDER : List Char := "xADMIN_DATABASE_DEREF_PLACEHOLDER".data

def TOPOLOGY_DESCRIPTION_DEFINITION_PLACEHOLDER : List Char :=
  "xTDESC_DEFINITION_PLACEHOLDER".data

def TOPOLOGY_DESCRIPTION_DEREF_PLACEHOLDER : List Char := "xTDESC_DEREF_PLACEHOLDER".data

/-- Fuel-based scanner underlying replaceAll; the fuel argument only makes the
recursion structural and is always at least the length of the list. -/
def replaceAllGo (p r : List Char) : Nat → List Char → List Char
  | _, [] => []
  | 0, s => s
  | n + 1, c :: s =>
    if p ≠ [] ∧ p.isPrefixOf (c :: s) then
      r ++ replaceAllGo p r n ((c :: s).drop p.length)
    else
      c :: replaceAllGo p r n s

/-- Leftmost, non-overlapping replacement of the literal pattern p by r,
modelling Regex::replace_all for a pattern without metacharacters. -/
def replaceAll (p r s : List Char) : List Char := replaceAllGo p r s.length s

/-- Attempts to match the regex THREAD_(d+)mid at the start of s, where d+ is
a nonempty maximal digit run; returns the captured digits and the rest. -/
def threadMatch (mid : List Char) (s : List Char) : Option (List Char × List Char) :=
  if ("THREAD_".data).isPrefixOf s then
    if (s.drop 7).takeWhile Char.isDigit ≠ [] ∧
        mid.isPrefixOf ((s.drop 7).drop ((s.drop 7).takeWhile Char.isDigit).length) then
      some ((s.drop 7).takeWhile Char.isDigit,
        ((s.drop 7).drop ((s.drop 7).takeWhile Char.isDigit).length).drop mid.length)
    else none
  else none

/-- Fuel-based scanner underlying threadReplaceAll. -/
def threadReplaceAllGo (mid : List Char) (rep : List Char → List Char) :
    Nat → List Char → List Char
  | _, [] => []
  | 0, s => s
  | n + 1, c :: s =>
    match threadMatch mid (c :: s) with
    | some (ds, rest) => rep ds ++ threadReplaceAllGo mid rep n rest
    | none => c :: threadReplaceAllGo mid rep n s

/-- Leftmost, non-overlapping replacement for the two thread regex rules;
rep builds the replacement from the captured digit group. -/
def threadReplaceAll (mid : List Char) (rep : List Char → List Char) (s : List Char) :
    List Char := threadReplaceAllGo mid rep s.length s

/-- The captured digit group of a thread placeholder: nonempty, all digits. -/
def validDs (ds : List Char) : Prop := ds ≠ [] ∧ ∀ c ∈ ds, c.isDigit

/-- The text matched by a thread rule with captured digits ds. -/
def threadPat (mid ds : List Char) : List Char := "THREAD_".data ++ ds ++ mid

/-- Replacement text of the two thread rules ($1 is the captured digit text). -/
def threadRep (isDef : Bool) (ds : List Char) : List Char :=
  if isDef then ("&thread".data) ++ (ds ++ ((" thread".data) ++ ds))
  else ("*thread".data) ++ ds

/-- One entry of REGEX_PLACEHOLDER_REPLACEMENTS: a literal rule or one of the
two thread regex rules. -/
inductive RRule where
  | literalRule (pat rep : List Char)
  | threadRule (mid : List Char) (isDef : Bool)

def applyRRule : RRule → List Char → List Char
  | .literalRule p r, s => replaceAll p r s
  | .threadRule mid isDef, s => threadReplaceAll mid (threadRep isDef) s

/-- The ordered substitution table, mirroring main.rs lines 573-601. -/
def REGEX_PLACEHOLDER_REPLACEMENTS : List RRule := [
  .literalRule CLIENT_DEFINITION_PLACEHOLDER ("&client client".data),
  .literalRule CLIENT_DEREF_PLACEHOLDER ("*client".data),
  .literalRule DATABASE_DEFINITION_PLACEHOLDER ("&database database".data),
  .literalRule DATABASE_DEREF_PLACEHOLDER ("*database".data),
  .literalRule DATABASE_NAME_DEFINITION_PLACEHOLDER ("&databaseName sdam-tests".data),
  .literalRule DATABASE_NAME_DEREF_PLACEHOLDER ("*databaseName".data),
  .literalRule COLLECTION_DEFINITION_PLACEHOLDER ("&collection collection".data),
  .literalRule COLLECTION_DEREF_PLACEHOLDER ("*collection".data),
  .literalRule COLLECTION_NAME_DEREF_PLACEHOLDER ("*collectionName".data),
  .literalRule ("initialData:".data) ("initialData: &initialData".data),
  .literalRule SETUP_CLIENT_DEFINITION_PLACEHOLDER ("&setupClient setupClient".data),
  .literalRule SETUP_CLIENT_DEREF_PLACEHOLDER ("*setupClient".data),
  .literalRule ADMIN_DATABASE_DEFINITION_PLACEHOLDER ("&adminDatabase adminDatabase".data),
  .literalRule ADMIN_DATABASE_DEREF_PLACEHOLDER ("*adminDatabase".data),
  .threadRule ("_DEFINITION_PLACEHOLDER".data) true,
  .threadRule ("_DEREF_PLACEHOLDER".data) false,
  .literalRule TOPOLOGY_DESCRIPTION_DEFINITION_PLACEHOLDER
    ("&topologyDescription topologyDescription".data),
  .literalRule TOPOLOGY_DESCRIPTION_DEREF_PLACEHOLDER ("*topologyDescription".data)]

/-- The substitution loop of convert (main.rs lines 691-694). -/
def resolveRules (s : List Char) : List Char :=
  REGEX_PLACEHOLDER_REPLACEMENTS.foldl (fun t ru => applyRRule ru t) s

/-- The loop plus the final collection-name substitution (lines 696-702). -/
def resolveFull (collectionName : List Char) (s : List Char) : List Char :=
  replaceAll COLLECTION_NAME_DEFINITION_PLACEHOLDER
    (("&collectionName ".data) ++ collectionName) (resolveRules s)

/-- The interleaving of untouched segments with replacement strings built by
f from the captured groups. -/
def glue (f : List Char → List Char) : List Char → List (List Char × List Char) → List Char
  | t, [] => t
  | t, (ds, t2) :: ps => t ++ f ds ++ glue f t2 ps

/-- q cannot overlap the replacement string r: r is nonempty, the first
character of r never occurs in q, no nonempty suffix of r is a prefix of q,
and q does not occur inside r. -/
def NoIntro (r q : List Char) : Prop :=
  r ≠ [] ∧ (∀ c ∈ r.take 1, c ∉ q) ∧ (∀ u ∈ r.tails, u = [] ∨ ¬ u <+: q) ∧ ¬ q <:+: r

instance decidableNoIntro (r q : List Char) : Decidable (NoIntro r q) := by
  unfold NoIntro
  exact inferInstance

/-- All sixteen reference-token (placeholder) strings of the source. -/
def refTokens : List (List Char) := [
  CLIENT_DEFINITION_PLACEHOLDER, CLIENT_DEREF_PLACEHOLDER,
  DATABASE_DEFINITION_PLACEHOLDER, DATABASE_DEREF_PLACEHOLDER,
  DATABASE_NAME_DEFINITION_PLACEHOLDER, DATABASE_NAME_DEREF_PLACEHOLDER,
  COLLECTION_DEFINITION_PLACEHOLDER, COLLECTION_DEREF_PLACEHOLDER,
  COLLECTION_NAME_DEFINITION_PLACEHOLDER, COLLECTION_NAME_DEREF_PLACEHOLDER,
  SETUP_CLIENT_DEFINITION_PLACEHOLDER, SETUP_CLIENT_DEREF_PLACEHOLDER,
  ADMIN_DATABASE_DEFINITION_PLACEHOLDER, ADMIN_DATABASE_DEREF_PLACEHOLDER,
  TOPOLOGY_DESCRIPTION_DEFINITION_PLACEHOLDER, TOPOLOGY_DESCRIPTION_DEREF_PLACEHOLDER]

/-- The replacement strings of the sixteen literal rules of the table. -/
def litReps : List (List Char) := [
  "&client client".data, "*client".data, "&database database".data, "*database".data,
  "&databaseName sdam-tests".data, "*databaseName".data, "&collection collection".data,
  "*collection".data, "*collectionName".data, "initialData: &initialData".data,
  "&setupClient setupClient".data, "*setupClient".data, "&adminDatabase adminDatabase".data,
  "*adminDatabase".data, "&topologyDescription topologyDescription".data,
  "*topologyDescription".data]

/-- Applying the rule never creates a new occurrence of q. -/
def PreservesFree (ru : RRule) (q : List Char) : Prop :=
  ∀ t, ¬ q <:+: t → ¬ q <:+: applyRRule ru t

/-- Hypotheses on the legacy collection name under which the final
substitution cannot leave or create a placeholder: no reference token occurs
in it, no nonempty suffix of it starts a reference token, it contains no
capital T (which starts every thread token).  The dollar condition keeps the
model faithful: Regex::replace_all would expand a dollar sign in the
replacement, which the model does not. -/
def benignName (c : List Char) : Prop :=
  (∀ q ∈ refTokens, ¬ q <:+: c ∧ ∀ u ∈ c.tails, u = [] ∨ ¬ u <+: q) ∧
  'T' ∉ c ∧ '$' ∉ c

instance decidableBenignName (c : List Char) : Decidable (benignName c) := by
  unfold benignName
  exact inferInstance

/-- No reference token, of any kind, occurs in the text. -/
def placeholderFree (s : List Char) : Prop :=
  (∀ q ∈ refTokens, ¬ q <:+: s) ∧
  ∀ ds, validDs ds → ¬ threadPat ("_DEFINITION_PLACEHOLDER".data) ds <:+: s ∧
    ¬ threadPat ("_DEREF_PLACEHOLDER".data) ds <:+: s

inductive Bson where
  | doc (fields : List (String × Bson))
  | arr (items : List Bson)
  | str (s : String)
  | int (n : Int)
  | bool (b : Bool)

abbrev BDoc := List (String × Bson)

mutual

def beqBson : Bson → Bson → Bool
  | .doc a, .doc b => beqBDoc a b
  | .arr a, .arr b => beqBsonList a b
  | .str a, .str b => a == b
  | .int a, .int b => a == b
  | .bool a, .bool b => a == b
  | _, _ => false

def beqBDoc : List (String × Bson) → List (String × Bson) → Bool
  | [], [] => true
  | (k1, v1) :: a, (k2, v2) :: b => k1 == k2 && beqBson v1 v2 && beqBDoc a b
  | _, _ => false

def beqBsonList : List Bson → List Bson → Bool
  | [], [] => true
  | v1 :: a, v2 :: b => beqBson v1 v2 && beqBsonList a b
  | _, _ => false

end

def dlookup (k : String) : BDoc → Option Bson
  | [] => none
  | (k2, v) :: d => if k2 = k then some v else dlookup k d

/-- bson Document insert: replaces the value in place when the key exists,
otherwise appends the pair at the end. -/
def dinsert (k : String) (v : Bson) : BDoc → BDoc
  | [] => [(k, v)]
  | (k2, v2) :: d => if k2 = k then (k2, v) :: d else (k2, v2) :: dinsert k v d

/-- Document::get_str: the key must be present with a string value. -/
def dgetStr (k : String) (d : BDoc) : Option String :=
  match dlookup k d with
  | some (.str s) => some s
  | _ => none

/-- Document::get_document: the key must be present with a document value. -/
def dgetDoc (k : String) (d : BDoc) : Option BDoc :=
  match dlookup k d with
  | some (.doc d2) => some d2
  | _ => none

inductive Serverless where
  | require
  | forbid
  | allow
deriving DecidableEq

structure RunOn where
  min_server_version : Option String
  max_server_version : Option String
  topology : Option (List String)
  serverless : Option Serverless
  auth_enabled : Option Bool

inductive TestData where
  | single (docs : List BDoc)
  | many (m : List (String × List BDoc))

structure OperationError where
  error_contains : Option String
  error_code_name : Option String
  error_code : Option Int
  error_labels_contain : Option (List String)
  error_labels_omit : Option (List String)

inductive OperationResult where
  | error (e : OperationError)
  | success (b : Bson)

structure CrudOperation where
  name : String
  object : String
  command_name : Option String
  arguments : Option BDoc
  error : Option Bool
  result : Option OperationResult

structure CommandStartedEvent where
  command_name : Option String
  database_name : Option String
  command : BDoc

structure CollectionOutcome where
  name : Option String
  data : List BDoc

structure CrudOutcome where
  collection : CollectionOutcome

structure CrudTest where
  description : String
  skip_reason : Option String
  use_multiple_mongoses : Option Bool
  client_uri : Option BDoc
  fail_point : Option BDoc
  session_options : Option (List (String × BDoc))
  operations : List CrudOperation
  expectations : Option (List CommandStartedEvent)
  outcome : Option CrudOutcome

structure CrudTestFile where
  run_on : Option (List RunOn)
  database_name : Option String
  collection_name : String
  bucket_name : Option String
  data : TestData
  tests : List CrudTest

def insertUnique (x : String) (l : List String) : List String :=
  if x ∈ l then l else l ++ [x]

/-- Models crud_v2::Test::observed_events (main.rs lines 79-98).  The Rust
HashSet is modelled as a duplicate-free list in insertion order; the
iteration order of the set is unspecified in Rust and no claim depends on
it.  Returns none where the Rust code would panic. -/
def observedEvents (t : CrudTest) : Option (List String) :=
  t.operations.foldlM (fun acc op =>
    if op.name = "waitForEvent" ∨ op.name = "assertEventCount" then do
      let args ← op.arguments
      let ev ← dgetStr "event" args
      let obs ←
        if ev = "PoolClearedEvent" then some "poolClearedEvent"
        else if ev = "PoolReadyEvent" then some "poolReadyEvent"
        else if ev = "ServerMarkedUnknownEvent" then some "serverDescriptionChangedEvent"
        else none
      pure (insertUnique obs acc)
    else pure acc)
    (if t.expectations.isSome then ["commandStartedEvent"] else [])

structure ClientEntity where
  id : String
  observe_events : Option (List String)
  uri_options : Option BDoc

structure DatabaseEntity where
  id : String
  client : String
  database_name : String

structure CollectionEntity where
  id : String
  database : String
  collection_name : String

inductive CreateEntity where
  | client (c : ClientEntity)
  | database (d : DatabaseEntity)
  | collection (c : CollectionEntity)
  | thread (id : String)

structure ExpectError where
  is_error : Option Bool
  error_contains : Option String
  error_code : Option Int
  error_code_name : Option String
  error_labels_contain : Option (List String)
  error_labels_omit : Option (List String)
deriving DecidableEq

structure UOperation where
  name : String
  object : String
  arguments : Option BDoc
  save_result_as_entity : Option String
  expect_result : Option Bson
  expect_error : Option ExpectError

inductive ExpectEvent where
  | commandStartedEvent (command : BDoc) (command_name : Option String)
      (database_name : Option String)

structure ExpectEvents where
  client : String
  event_type : String
  events : List ExpectEvent

structure UInitialData where
  collection_name : String
  database_name : String
  documents : List BDoc

structure RunOnRequirements where
  min_server_version : Option String
  max_server_version : Option String
  topologies : Option (List String)
  auth : Option Bool

def runOnToRequirements (old : RunOn) : RunOnRequirements :=
  ⟨old.min_server_version, old.max_server_version, old.topology, old.auth_enabled⟩

structure UTest where
  description : String
  run_on_requirements : Option (List RunOnRequirements)
  operations : List UOperation
  expect_events : Option (List ExpectEvents)
  outcome : Option (List UInitialData)

structure UTestFile where
  description : String
  schema_version : String
  run_on_requirements : Option (List RunOnRequirements)
  create_entities : Option (List CreateEntity)
  initial_data : Option (List UInitialData)
  tests : List UTest

def optField (k : String) (v : Option Bson) : BDoc :=
  match v with
  | some b => [(k, b)]
  | none => []

def entityToBson : CreateEntity → Bson
  | .client c => .doc [("client", .doc (
      [("id", .str c.id)] ++
      optField "observeEvents" (c.observe_events.map (fun l => .arr (l.map .str))) ++
      optField "uriOptions" (c.uri_options.map .doc)))]
  | .database d => .doc [("database", .doc [("id", .str d.id), ("client", .str d.client),
      ("databaseName", .str d.database_name)])]
  | .collection c => .doc [("collection", .doc [("id", .str c.id),
      ("database", .str c.database), ("collectionName", .str c.collection_name)])]
  | .thread id => .doc [("thread", .doc [("id", .str id)])]

def expectErrorToBson (e : ExpectError) : Bson :=
  .doc (optField "isError" (e.is_error.map .bool) ++
    optField "errorContains" (e.error_contains.map .str) ++
    optField "errorCode" (e.error_code.map .int) ++
    optField "errorCodeName" (e.error_code_name.map .str) ++
    optField "errorLabelsContain" (e.error_labels_contain.map (fun l => .arr (l.map .str))) ++
    optField "errorLabelsOmit" (e.error_labels_omit.map (fun l => .arr (l.map .str))))

def uOperationToBson (o : UOperation) : Bson :=
  .doc ([("name", .str o.name), ("object", .str o.object)] ++
    optField "arguments" (o.arguments.map .doc) ++
    optField "saveResultAsEntity" (o.save_result_as_entity.map .str) ++
    optField "expectResult" o.expect_result ++
    optField "expectError" (o.expect_error.map expectErrorToBson))

def parseStr : Bson → Option String
  | .str s => some s
  | _ => none

def parseBool : Bson → Option Bool
  | .bool b => some b
  | _ => none

def parseInt : Bson → Option Int
  | .int n => some n
  | _ => none

def parseDoc : Bson → Option BDoc
  | .doc d => some d
  | _ => none

def parseStrList : Bson → Option (List String)
  | .arr l => l.mapM parseStr
  | _ => none

def parseDocList : Bson → Option (List BDoc)
  | .arr l => l.mapM parseDoc
  | _ => none

/-- An optional struct field: an absent key yields none, a present key must
parse. -/
def optParse {A : Type} (f : Bson → Option A) (k : String) (d : BDoc) : Option (Option A) :=
  match dlookup k d with
  | none => some none
  | some v => (f v).map some

/-- A required struct field: the key must be present and parse. -/
def reqParse {A : Type} (f : Bson → Option A) (k : String) (d : BDoc) : Option A :=
  match dlookup k d with
  | none => none
  | some v => f v

def operationErrorKeys : List String :=
  ["errorContains", "errorCodeName", "errorCode", "errorLabelsContain", "errorLabelsOmit"]

/-- crud_v2::OperationError: camelCase keys, deny_unknown_fields, every
field optional. -/
def parseOperationError (b : Bson) : Option OperationError := do
  let d ← parseDoc b
  if d.all (fun kv => kv.1 ∈ operationErrorKeys) then
    let ec ← optParse parseStr "errorContains" d
    let ecn ← optParse parseStr "errorCodeName" d
    let ecode ← optParse parseInt "errorCode" d
    let elc ← optParse parseStrList "errorLabelsContain" d
    let elo ← optParse parseStrList "errorLabelsOmit" d
    pure ⟨ec, ecn, ecode, elc, elo⟩
  else none

/-- crud_v2::OperationResult: untagged, the Error variant tried before
Success; Success accepts any bson value, so this parser is total. -/
def parseOperationResult (b : Bson) : Option OperationResult :=
  match parseOperationError b with
  | some e => some (.error e)
  | none => some (.success b)

def operationKeys : List String :=
  ["name", "object", "command_name", "arguments", "error", "result"]

/-- crud_v2::Operation: camelCase keys except command_name, which an explicit
rename keeps as is; deny_unknown_fields. -/
def parseOperation (b : Bson) : Option CrudOperation := do
  let d ← parseDoc b
  if d.all (fun kv => kv.1 ∈ operationKeys) then
    let nm ← reqParse parseStr "name" d
    let ob ← reqParse parseStr "object" d
    let cn ← optParse parseStr "command_name" d
    let args ← optParse parseDoc "arguments" d
    let err ← optParse parseBool "error" d
    let res ← optParse parseOperationResult "result" d
    pure ⟨nm, ob, cn, args, err, res⟩
  else none

/-- Serverless: lowercase variant names. -/
def parseServerless (b : Bson) : Option Serverless := do
  let s ← parseStr b
  if s = "require" then some .require
  else if s = "forbid" then some .forbid
  else if s = "allow" then some .allow
  else none

def runOnKeys : List String :=
  ["minServerVersion", "maxServerVersion", "topology", "serverless", "authEnabled"]

/-- crud_v2::RunOn: camelCase keys, deny_unknown_fields. -/
def parseRunOn (b : Bson) : Option RunOn := do
  let d ← parseDoc b
  if d.all (fun kv => kv.1 ∈ runOnKeys) then
    let mn ← optParse parseStr "minServerVersion" d
    let mx ← optParse parseStr "maxServerVersion" d
    let tp ← optParse parseStrList "topology" d
    let sv ← optParse parseServerless "serverless" d
    let au ← optParse parseBool "authEnabled" d
    pure ⟨mn, mx, tp, sv, au⟩
  else none

def commandStartedEventKeys : List String := ["command_name", "database_name", "command"]

/-- crud_v2::CommandStartedEvent: snake_case keys, deny_unknown_fields. -/
def parseCommandStartedEvent (d : BDoc) : Option CommandStartedEvent := do
  if d.all (fun kv => kv.1 ∈ commandStartedEventKeys) then
    let cn ← optParse parseStr "command_name" d
    let dbn ← optParse parseStr "database_name" d
    let cmd ← reqParse parseDoc "command" d
    pure ⟨cn, dbn, cmd⟩
  else none

/-- Models deserialize_command_started_events (main.rs lines 150-165): the
field value is a list of documents, each of which must carry the event
under the key command_started_event; a missing key or a malformed event
panics inside the deserializer. -/
def parseExpectations (b : Bson) : Option (List CommandStartedEvent) := do
  let docs ← parseDocList b
  docs.mapM (fun d => do
    let ev ← dgetDoc "command_started_event" d
    parseCommandStartedEvent ev)

/-- crud_v2::CollectionOutcome: no deny_unknown_fields, unknown keys are
ignored. -/
def parseCollectionOutcome (b : Bson) : Option CollectionOutcome := do
  let d ← parseDoc b
  let nm ← optParse parseStr "name" d
  let dt ← reqParse parseDocList "data" d
  pure ⟨nm, dt⟩

/-- crud_v2::Outcome: no deny_unknown_fields, unknown keys are ignored. -/
def parseCrudOutcome (b : Bson) : Option CrudOutcome := do
  let d ← parseDoc b
  let col ← reqParse parseCollectionOutcome "collection" d
  pure ⟨col⟩

def parseSessionOptions (b : Bson) : Option (List (String × BDoc)) := do
  let d ← parseDoc b
  d.mapM (fun kv => (parseDoc kv.2).map (fun d2 => (kv.1, d2)))

def parseOperationList (b : Bson) : Option (List CrudOperation) :=
  match b with
  | .arr l => l.mapM parseOperation
  | _ => none

/-- crud_v2::Test (main.rs lines 62-76): camelCase keys, and crucially no
deny_unknown_fields attribute, so unknown keys at the test-case level are
ignored rather than rejected. -/
def parseCrudTest (b : Bson) : Option CrudTest := do
  let d ← parseDoc b
  let de ← reqParse parseStr "description" d
  let sk ← optParse parseStr "skipReason" d
  let um ← optParse parseBool "useMultipleMongoses" d
  let cu ← optParse parseDoc "clientOptions" d
  let fp ← optParse parseDoc "failPoint" d
  let so ← optParse parseSessionOptions "sessionOptions" d
  let ops ← reqParse parseOperationList "operations" d
  let ex ← optParse parseExpectations "expectations" d
  let oc ← optParse parseCrudOutcome "outcome" d
  pure ⟨de, sk, um, cu, fp, so, ops, ex, oc⟩

/-- crud_v2::TestData: untagged, the flat document-sequence shape tried
before the mapping shape. -/
def parseTestData (b : Bson) : Option TestData :=
  match parseDocList b with
  | some docs => some (.single docs)
  | none =>
    match b with
    | .doc d =>
      match d.mapM (fun kv => (parseDocList kv.2).map (fun l => (kv.1, l))) with
      | some m => some (.many m)
      | none => none
    | _ => none

def parseRunOnList (b : Bson) : Option (List RunOn) :=
  match b with
  | .arr l => l.mapM parseRunOn
  | _ => none

def parseTestList (b : Bson) : Option (List CrudTest) :=
  match b with
  | .arr l => l.mapM parseCrudTest
  | _ => none

def testFileKeys : List String :=
  ["runOn", "database_name", "collection_name", "bucket_name", "data", "tests"]

/-- crud_v2::TestFile (main.rs lines 33-43): deny_unknown_fields; the runOn
key is renamed, the other keys keep their snake_case names. -/
def parseCrudTestFile (d : BDoc) : Option CrudTestFile := do
  if d.all (fun kv => kv.1 ∈ testFileKeys) then
    let ro ← optParse parseRunOnList "runOn" d
    let dbn ← optParse parseStr "database_name" d
    let cn ← reqParse parseStr "collection_name" d
    let bn ← optParse parseStr "bucket_name" d
    let dt ← reqParse parseTestData "data" d
    let ts ← reqParse parseTestList "tests" d
    pure ⟨ro, dbn, cn, bn, dt, ts⟩
  else none

/-- Rust usize parse of a decimal string.  The model accepts exactly a
nonempty all-digit string (the source never feeds a leading plus sign). -/
def parseNatDigits (l : List Char) : Option Nat :=
  if l ≠ [] ∧ l.all Char.isDigit then
    some (l.foldl (fun acc c => acc * 10 + (c.toNat - 48)) 0)
  else none

/-- Models Operation::thread_number (main.rs lines 506-514): strip the fixed
prefix thread, parse the remaining 1-based index, subtract one.  Returns
none where the Rust code would panic: a missing prefix, an unparsable
index, or index zero, where the usize subtraction overflows. -/
def threadNumber (s : String) : Option Nat :=
  if ("thread".data).isPrefixOf s.data then
    match parseNatDigits (s.data.drop 6) with
    | some n => if n = 0 then none else some (n - 1)
    | none => none
  else none

def threadDefinitionPlaceholder (i : Nat) : String :=
  "THREAD_" ++ toString i ++ "_DEFINITION_PLACEHOLDER"

def threadDerefPlaceholder (i : Nat) : String :=
  "THREAD_" ++ toString i ++ "_DEREF_PLACEHOLDER"

/-- Models one layer of Operation::from_crud_v2 (main.rs lines 365-504),
with the runOnThread recursive descent abstracted as the recurse parameter.
Returns none where the Rust code would panic.  The testNumber parameter is
passed along exactly as in the source, which never reads it. -/
def translateOpCore (recurse : CrudOperation → Option UOperation)
    (testNumber : Nat) (oldOp : CrudOperation) : Option UOperation := do
    let object0 := if oldOp.object = "collection" then "xCOLLECTION_DEREF_PLACEHOLDER"
      else oldOp.object
    let core ←
      if oldOp.name = "waitForEvent" ∨ oldOp.name = "assertEventCount" then do
        let oldArgs ← oldOp.arguments
        let ev ← dgetStr "event" oldArgs
        let evDoc ←
          if ev = "ServerMarkedUnknownEvent" then
            some (Bson.doc [("serverDescriptionChangedEvent",
              .doc [("newDescription", .doc [("type", .str "Unknown")])])])
          else if ev = "PoolClearedEvent" then
            some (Bson.doc [("poolClearedEvent", .doc [])])
          else if ev = "PoolReadyEvent" then
            some (Bson.doc [("poolReadyEvent", .doc [])])
          else none
        let cnt ← dlookup "count" oldArgs
        pure (oldOp.name, object0,
          some [("client", Bson.str "xCLIENT_DEREF_PLACEHOLDER"), ("event", evDoc),
            ("count", cnt)])
      else if oldOp.name = "recordPrimary" then
        pure ("recordTopologyDescription", object0,
          some [("client", Bson.str "xCLIENT_DEREF_PLACEHOLDER"),
            ("id", Bson.str "xTDESC_DEFINITION_PLACEHOLDER")])
      else if oldOp.name = "waitForPrimaryChange" then do
        let base : BDoc := [("client", Bson.str "xCLIENT_DEREF_PLACEHOLDER"),
          ("priorTopologyDescription", Bson.str "xTDESC_DEREF_PLACEHOLDER")]
        let newArgs :=
          match oldOp.arguments.bind (fun a => dlookup "timeoutMS" a) with
          | some t => dinsert "timeoutMS" t base
          | none => base
        pure (oldOp.name, object0, some newArgs)
      else if oldOp.name = "runAdminCommand" then do
        let args ← oldOp.arguments
        let cn ← oldOp.command_name
        pure ("runCommand", "xADMIN_DATABASE_DEREF_PLACEHOLDER",
          some (dinsert "commandName" (Bson.str cn) args))
      else if oldOp.name = "runCommand" then do
        let args ← oldOp.arguments
        let cn ← oldOp.command_name
        pure (oldOp.name, object0, some (dinsert "commandName" (Bson.str cn) args))
      else if oldOp.name = "startThread" then do
        let args ← oldOp.arguments
        let tn ← dgetStr "name" args
        let num ← threadNumber tn
        pure ("createEntities", "testRunner",
          some [("entities",
            Bson.arr [entityToBson (.thread (threadDefinitionPlaceholder num))])])
      else if oldOp.name = "runOnThread" then do
        let args ← oldOp.arguments
        let tn ← dgetStr "name" args
        let num ← threadNumber tn
        let opBson ← dlookup "operation" args
        let oldOperation ← parseOperation opBson
        let newOp ← recurse oldOperation
        pure (oldOp.name, object0,
          some [("thread", Bson.str (threadDerefPlaceholder num)),
            ("operation", uOperationToBson newOp)])
      else if oldOp.name = "waitForThread" then do
        let args ← oldOp.arguments
        let tn ← dgetStr "name" args
        let num ← threadNumber tn
        pure (oldOp.name, object0, some [("thread", Bson.str (threadDerefPlaceholder num))])
      else if oldOp.name = "configureFailPoint" then do
        let args ← oldOp.arguments
        pure ("failPoint", "testRunner",
          some (dinsert "client" (Bson.str "xSETUP_CLIENT_DEREF_PLACEHOLDER") args))
      else
        pure (oldOp.name, object0, oldOp.arguments)
    let res : Option Bson × Option ExpectError :=
      match oldOp.result with
      | some (.success b) => (some b, none)
      | some (.error e) =>
        (none, some ⟨none, e.error_contains, e.error_code, none,
          e.error_labels_contain, e.error_labels_omit⟩)
      | none =>
        if oldOp.error.getD false then
          (none, some ⟨some true, none, none, none, none, none⟩)
        else (none, none)
    pure ⟨core.1, core.2.1, core.2.2, none, res.1, res.2⟩

/-- Operation::from_crud_v2 (main.rs lines 294-505) with a fuel bound on the
runOnThread recursion depth: at fuel 0 a runOnThread nested operation fails,
every other branch is fuel-independent. -/
def translateOp : Nat → Nat → CrudOperation → Option UOperation
  | 0, testNumber, oldOp => translateOpCore (fun _ => none) testNumber oldOp
  | fuel + 1, testNumber, oldOp =>
    translateOpCore (translateOp fuel testNumber) testNumber oldOp

/-- The three per-test entities synthesized by Test::from_crud_v2 (main.rs
lines 264-279); the placeholder ids are fixed strings independent of the
test number. -/
def testEntities (observed : List String) (uri : Option BDoc) : List CreateEntity := [
  .client ⟨"xCLIENT_DEFINITION_PLACEHOLDER", some observed, uri⟩,
  .database ⟨"xDATABASE_DEFINITION_PLACEHOLDER", "xCLIENT_DEREF_PLACEHOLDER",
    "xDATABASE_NAME_DEREF_PLACEHOLDER"⟩,
  .collection ⟨"xCOLLECTION_DEFINITION_PLACEHOLDER", "xDATABASE_DEREF_PLACEHOLDER",
    "xCOLLECTION_NAME_DEREF_PLACEHOLDER"⟩]

/-- The per-test entity-creation operation (main.rs lines 281-292). -/
def tripleCreateOp (observed : List String) (uri : Option BDoc) : UOperation :=
  ⟨"createEntities", "testRunner",
    some [("entities", .arr ((testEntities observed uri).map entityToBson))],
    none, none, none⟩

/-- The leading fail-point operation synthesized from the fail_point field
of a legacy test case (main.rs lines 250-262). -/
def failPointOp (fp : BDoc) : UOperation :=
  ⟨"failPoint", "testRunner",
    some [("client", .str "xSETUP_CLIENT_DEREF_PLACEHOLDER"), ("failPoint", .doc fp)],
    none, none, none⟩

/-- Models unified::Test::from_crud_v2 (main.rs lines 247-328).  Returns
none where the Rust code would panic.  The vector of the three per-test
entities is built unconditionally, so the source guard on it being nonempty
is always taken. -/
def testFromCrudV2 (fuel : Nat) (old : CrudTest) (testNumber : Nat) : Option UTest := do
  let observed ← observedEvents old
  let fpOps : List UOperation :=
    match old.fail_point with
    | some fp => [failPointOp fp]
    | none => []
  let translated ← old.operations.mapM (translateOp fuel testNumber)
  let expectEvents : Option (List ExpectEvents) := old.expectations.map (fun oldEvents =>
    [⟨"xCLIENT_DEREF_PLACEHOLDER", "command", oldEvents.map (fun ev =>
      .commandStartedEvent ev.command ev.command_name
        (some "xDATABASE_NAME_DEREF_PLACEHOLDER"))⟩])
  let outcome : Option (List UInitialData) := old.outcome.map (fun oldOutcome =>
    [⟨"xCOLLECTION_NAME_DEREF_PLACEHOLDER", "xDATABASE_NAME_DEREF_PLACEHOLDER",
      oldOutcome.collection.data⟩])
  pure ⟨old.description, none,
    fpOps ++ [tripleCreateOp observed old.client_uri] ++ translated, expectEvents, outcome⟩

/-- The pre-scan for admin commands (main.rs lines 614-619). -/
def adminFlag (old : CrudTestFile) : Bool :=
  old.tests.any fun t => t.operations.any (fun op => op.name = "runAdminCommand")

/-- The pre-scan for fail points (main.rs lines 620-625). -/
def fpFlag (old : CrudTestFile) : Bool :=
  old.tests.any fun t =>
    t.fail_point.isSome || t.operations.any (fun op => op.name = "configureFailPoint")

/-- The shared file-level setup client (main.rs lines 663-667). -/
def setupClientEntity : CreateEntity :=
  .client ⟨"xSETUP_CLIENT_DEFINITION_PLACEHOLDER", none, none⟩

/-- The file-level admin database, bound to the setup client (main.rs lines
670-674). -/
def adminDatabaseEntity : CreateEntity :=
  .database ⟨"xADMIN_DATABASE_DEFINITION_PLACEHOLDER",
    "xSETUP_CLIENT_DEREF_PLACEHOLDER", "admin"⟩

/-- Models convert (main.rs lines 611-705) up to serialization: the two
pre-scan flags, the per-test conversion with ordinal numbers, the
fixture-data handling (fatal on the mapping shape), the conditional
file-level setup-client and admin-database synthesis, and assembly of the
unified test file.  Returns none where the Rust code would panic. -/
def convertFile (fuel : Nat) (fileName : String) (old : CrudTestFile) :
    Option UTestFile := do
  let tests ← old.tests.enum.mapM (fun p => testFromCrudV2 fuel p.2 p.1)
  let initialData ←
    match old.data with
    | .single docs => some [(⟨"COLLECTION_NAME_DEFINITION_PLACEHOLDER",
        "xDATABASE_NAME_DEFINITION_PLACEHOLDER", docs⟩ : UInitialData)]
    | .many _ => none
  let ents : List CreateEntity :=
    if fpFlag old || adminFlag old then
      [setupClientEntity] ++ (if adminFlag old then [adminDatabaseEntity] else [])
    else []
  pure ⟨fileName, "1.9", old.run_on.map (fun l => l.map runOnToRequirements),
    some ents, some initialData, tests⟩

/-- The conversion entry point: convertFile followed by rendering and the
resolver pass.  The serializer (serde_yaml::to_string) is an external
library, abstracted as an arbitrary rendering function yaml. -/
def convertM (yaml : UTestFile → List Char) (fuel : Nat) (fileName : String)
    (old : CrudTestFile) : Option (List Char) :=
  (convertFile fuel fileName old).map
    (fun tf => resolveFull old.collection_name.data (yaml tf))

def beqOption {A : Type} (f : A → A → Bool) : Option A → Option A → Bool
  | none, none => true
  | some a, some b => f a b
  | _, _ => false

/-- Boolean equality of target operations, used to count occurrences. -/
def beqUOperation (a b : UOperation) : Bool :=
  a.name == b.name && a.object == b.object &&
  beqOption beqBDoc a.arguments b.arguments &&
  a.save_result_as_entity == b.save_result_as_entity &&
  beqOption beqBson a.expect_result b.expect_result &&
  a.expect_error == b.expect_error

def c4Input : List Char := "initialData:".data

def c5File : CrudTestFile := ⟨none, none, "coll", none, .many [("a", [])], []⟩

def c8Op : CrudOperation := ⟨"waitForEvent", "testRunner", none,
  some [("event", .str "PoolClearedEvent"), ("count", .int 1)], none, none⟩

def c8BadOp : CrudOperation := ⟨"waitForEvent", "testRunner", none,
  some [("event", .str "BogusEvent"), ("count", .int 1)], none, none⟩

def c9Op : CrudOperation := ⟨"startThread", "testRunner", none,
  some [("name", .str "thread1")], none, none⟩

def c7Op : CrudOperation := ⟨"runCommand", "database", none,
  some [("ping", .int 1)], none, none⟩

def c7PassOp : CrudOperation := ⟨"insertOne", "testRunner", some "zz",
  some [("document", .doc [])], none, none⟩

def c1File : CrudTestFile :=
  ⟨none, none, "xCLIENT_DEREF_PLACEHOLDER", none, .single [], []⟩

def c1Yaml : UTestFile → List Char :=
  fun _ => "collectionName: COLLECTION_NAME_DEFINITION_PLACEHOLDER".data

def c1WitFile : CrudTestFile := ⟨none, none, "coll", none, .single [], []⟩

def c2Test (d : String) : CrudTest := ⟨d, none, none, none, none, none, [], none, none⟩

def c2File : CrudTestFile :=
  ⟨none, none, "coll", none, .single [], [c2Test "t0", c2Test "t1"]⟩

/-- Recognizer for the shared file-level setup client entity. -/
def isSetupClient : CreateEntity → Bool
  | .client c => c.id == "xSETUP_CLIENT_DEFINITION_PLACEHOLDER"
  | _ => false

/-- Recognizer for the file-level admin database entity. -/
def isAdminDatabase : CreateEntity → Bool
  | .database d => d.id == "xADMIN_DATABASE_DEFINITION_PLACEHOLDER"
  | _ => false

def c3Test : CrudTest := ⟨"t", none, none, none, some [], none,
  [⟨"runAdminCommand", "database", some "ping", some [], none, none⟩], none, none⟩

def c3File : CrudTestFile := ⟨none, none, "coll", none, .single [], [c3Test]⟩

/-- The field names of crud_v2::Test (main.rs lines 62-76) under its
camelCase rename. -/
def crudTestKeys : List String := ["description", "skipReason", "useMultipleMongoses",
  "clientOptions", "failPoint", "sessionOptions", "operations", "expectations", "outcome"]

def c6TestDoc : Bson := .doc [("description", .str "t"), ("operations", .arr []),
  ("bogusField", .int 1)]

def c6FileDoc : BDoc := [("collection_name", .str "coll"), ("data", .arr []),
  ("tests", .arr [c6TestDoc])]

/-- A legacy operation forged to translate to exactly the synthesized
triple-creation operation: an unrecognized name passes through untouched. -/
def c10Forged : CrudOperation := ⟨"createEntities", "testRunner", none,
  some [("entities", .arr ((testEntities [] none).map entityToBson))], none, none⟩

def c10Test : CrudTest := ⟨"t", none, none, none, none, none, [c10Forged], none, none⟩

def c10WitTest : CrudTest := ⟨"t", none, none, none, some [], none,
  [⟨"insertOne", "collection", none, some [], none, none⟩], none, none⟩

def c10WitFile : CrudTestFile := ⟨none, none, "coll", none, .single [], [c10WitTest]⟩

/-!
Theorems: the occurrence theory of the substitution passes, structural facts
about the converter, and the claims.
-/

theorem replaceAllGo_fuel {p r : List Char} :
    ∀ (n : Nat) (s : List Char), s.length ≤ n →
      replaceAllGo p r n s = replaceAllGo p r s.length s := by
  intro n
  induction n using Nat.strong_induction_on with
  | _ n ih =>
    intro s hs
    match s with
    | [] =>
      cases n <;> rfl
    | c :: s =>
      obtain ⟨m, rfl⟩ : ∃ m, n = m + 1 := ⟨n - 1, by simp at hs; omega⟩
      show replaceAllGo p r (m + 1) (c :: s) = replaceAllGo p r (s.length + 1) (c :: s)
      rw [replaceAllGo, replaceAllGo]
      have hlen : s.length ≤ m := by simpa using hs
      by_cases hc : p ≠ [] ∧ p.isPrefixOf (c :: s)
      · rw [if_pos hc, if_pos hc]
        have hp : 0 < p.length := List.length_pos.mpr hc.1
        have hd : ((c :: s).drop p.length).length ≤ m := by
          simp only [List.length_drop, List.length_cons]
          omega
        have hd2 : ((c :: s).drop p.length).length ≤ s.length := by
          simp only [List.length_drop, List.length_cons]
          omega
        rw [ih m (by omega) _ hd, ih s.length (by omega) _ hd2]
      · rw [if_neg hc, if_neg hc, ih m (by omega) _ hlen,
          ih s.length (by omega) _ (Nat.le_refl _)]

theorem replaceAll_nil (p r : List Char) : replaceAll p r [] = [] := rfl

theorem replaceAll_cons (p r : List Char) (c : Char) (s : List Char) :
    replaceAll p r (c :: s) =
      if p ≠ [] ∧ p.isPrefixOf (c :: s) then
        r ++ replaceAll p r ((c :: s).drop p.length)
      else
        c :: replaceAll p r s := by
  show replaceAllGo p r (s.length + 1) (c :: s) = _
  rw [replaceAllGo]
  by_cases hc : p ≠ [] ∧ p.isPrefixOf (c :: s)
  · rw [if_pos hc, if_pos hc]
    have hd : ((c :: s).drop p.length).length ≤ s.length := by
      have : 0 < p.length := List.length_pos.mpr hc.1
      simp only [List.length_drop, List.length_cons]
      omega
    rw [replaceAllGo_fuel _ _ hd]
    rfl
  · rw [if_neg hc, if_neg hc]
    rfl

theorem threadMatch_some_length {mid s : List Char} {ds rest : List Char}
    (h : threadMatch mid s = some (ds, rest)) : rest.length < s.length := by
  unfold threadMatch at h
  split at h
  · rename_i hpre
    split at h
    · rename_i hcond
      injection h with h2
      have h3 : rest = ((s.drop 7).drop ((s.drop 7).takeWhile Char.isDigit).length).drop
          mid.length := by
        have := congrArg Prod.snd h2
        simpa using this.symm
      have h4 : 7 ≤ s.length := by
        have := List.IsPrefix.length_le (List.isPrefixOf_iff_prefix.mp hpre)
        simpa using this
      have h5 : 0 < ((s.drop 7).takeWhile Char.isDigit).length :=
        List.length_pos.mpr hcond.1
      rw [h3]
      simp only [List.length_drop]
      omega
    · exact absurd h (by simp)
  · exact absurd h (by simp)

theorem threadReplaceAllGo_fuel {mid : List Char} {rep : List Char → List Char} :
    ∀ (n : Nat) (s : List Char), s.length ≤ n →
      threadReplaceAllGo mid rep n s = threadReplaceAllGo mid rep s.length s := by
  intro n
  induction n using Nat.strong_induction_on with
  | _ n ih =>
    intro s hs
    match s with
    | [] =>
      cases n <;> rfl
    | c :: s =>
      obtain ⟨m, rfl⟩ : ∃ m, n = m + 1 := ⟨n - 1, by simp at hs; omega⟩
      show threadReplaceAllGo mid rep (m + 1) (c :: s) =
        threadReplaceAllGo mid rep (s.length + 1) (c :: s)
      rw [threadReplaceAllGo, threadReplaceAllGo]
      have hlen : s.length ≤ m := by simpa using hs
      match hm : threadMatch mid (c :: s) with
      | some (ds, rest) =>
        have hr : rest.length < s.length + 1 := by
          simpa using threadMatch_some_length hm
        simp only
        rw [ih m (by omega) _ (by omega), ih s.length (by omega) _ (by omega)]
      | none =>
        simp only
        rw [ih m (by omega) _ hlen, ih s.length (by omega) _ (Nat.le_refl _)]

theorem threadReplaceAll_nil (mid : List Char) (rep : List Char → List Char) :
    threadReplaceAll mid rep [] = [] := rfl

theorem threadReplaceAll_cons (mid : List Char) (rep : List Char → List Char) (c : Char)
    (s : List Char) :
    threadReplaceAll mid rep (c :: s) =
      match threadMatch mid (c :: s) with
      | some (ds, rest) => rep ds ++ threadReplaceAll mid rep rest
      | none => c :: threadReplaceAll mid rep s := by
  show threadReplaceAllGo mid rep (s.length + 1) (c :: s) = _
  rw [threadReplaceAllGo]
  match hm : threadMatch mid (c :: s) with
  | some (ds, rest) =>
    have hr : rest.length < s.length + 1 := by
      simpa using threadMatch_some_length hm
    simp only
    rw [threadReplaceAllGo_fuel s.length rest (by omega)]
    rfl
  | none => rfl

theorem infix_append_split {q a b : List Char} (h : q <:+: a ++ b) :
    q <:+: a ∨ q <:+: b ∨
      ∃ q1 q2, q = q1 ++ q2 ∧ q1 ≠ [] ∧ q2 ≠ [] ∧ q1 <:+ a ∧ q2 <+: b := by
  obtain ⟨u, v, huv⟩ := h
  rw [List.append_assoc] at huv
  rcases List.append_eq_append_iff.mp huv with ⟨a2, ha, hqv⟩ | ⟨c2, _, hb⟩
  · rcases List.append_eq_append_iff.mp hqv with ⟨x, hx1, _⟩ | ⟨y, hy1, hy2⟩
    · left
      exact ⟨u, x, by rw [ha, hx1, List.append_assoc]⟩
    · by_cases ha2 : a2 = []
      · subst ha2
        right; left
        simp only [List.nil_append] at hy1
        exact ⟨[], v, by rw [hy2, hy1, List.nil_append]⟩
      · by_cases hy : y = []
        · subst hy
          left
          rw [List.append_nil] at hy1
          exact ⟨u, [], by rw [ha, hy1, List.append_nil]⟩
        · right; right
          exact ⟨a2, y, hy1, ha2, hy, ⟨u, ha.symm⟩, ⟨v, hy2.symm⟩⟩
  · right; left
    exact ⟨c2, v, by rw [hb, List.append_assoc]⟩

theorem suffix_append_split {u a b : List Char} (h : u <:+ a ++ b) :
    u <:+ b ∨ ∃ x, x <:+ a ∧ x ≠ [] ∧ u = x ++ b := by
  obtain ⟨w, hw⟩ := h
  rcases List.append_eq_append_iff.mp hw with ⟨a2, ha, hu⟩ | ⟨c2, _, hb⟩
  · by_cases ha2 : a2 = []
    · subst ha2
      simp only [List.nil_append] at hu
      exact Or.inl (hu ▸ List.suffix_refl b)
    · exact Or.inr ⟨a2, ⟨w, ha.symm⟩, ha2, hu⟩
  · exact Or.inl ⟨c2, hb.symm⟩

theorem headq_of_pref {u v : List Char} (h : u <+: v) (hu : u ≠ []) :
    v.head? = u.head? := by
  obtain ⟨w, hw⟩ := h
  subst hw
  match u with
  | [] => exact absurd rfl hu
  | c :: u => rfl

theorem mem_take_one_of_head? {l : List Char} {c : Char} (h : l.head? = some c) :
    c ∈ l.take 1 := by
  match l with
  | [] => simp at h
  | d :: l =>
    simp only [List.head?_cons, Option.some.injEq] at h
    subst h
    simp

theorem head?_append_left {a b : List Char} (ha : a ≠ []) : (a ++ b).head? = a.head? := by
  match a with
  | [] => exact absurd rfl ha
  | c :: a => rfl

theorem glue_cons_head (f : List Char → List Char) (c : Char) (t : List Char)
    (ps : List (List Char × List Char)) : glue f (c :: t) ps = c :: glue f t ps := by
  match ps with
  | [] => rfl
  | (ds, t2) :: ps => simp [glue]

theorem glue_first_pref (f : List Char → List Char) (t : List Char)
    (ps : List (List Char × List Char)) : t <+: glue f t ps := by
  match ps with
  | [] => exact List.prefix_refl t
  | (ds, t2) :: ps => exact ⟨f ds ++ glue f t2 ps, by simp [glue]⟩

theorem glue_chunk_inf (f : List Char → List Char) :
    ∀ (t : List Char) (ps : List (List Char × List Char)),
      (t <:+: glue f t ps) ∧ ∀ e ∈ ps, e.2 <:+: glue f t ps := by
  intro t ps
  induction ps generalizing t with
  | nil => exact ⟨List.infix_refl t, by simp⟩
  | cons e ps ih =>
    obtain ⟨ds, t2⟩ := e
    have hsuf : glue f t2 ps <:+ glue f t ((ds, t2) :: ps) :=
      ⟨t ++ f ds, by simp [glue]⟩
    constructor
    · exact (glue_first_pref f t _).isInfix
    · intro e he
      rcases List.mem_cons.mp he with he | he
      · subst he
        exact List.IsInfix.trans (ih t2).1 hsuf.isInfix
      · exact List.IsInfix.trans ((ih t2).2 e he) hsuf.isInfix

theorem not_infix_glue {q : List Char} {f : List Char → List Char} (_ : q ≠ []) :
    ∀ {t : List Char} {ps : List (List Char × List Char)},
      (∀ e ∈ ps, NoIntro (f e.1) q) → ¬ q <:+: t → (∀ e ∈ ps, ¬ q <:+: e.2) →
      ¬ q <:+: glue f t ps := by
  intro t ps
  induction ps generalizing t with
  | nil =>
    intro _ ht _
    exact ht
  | cons e ps ih =>
    obtain ⟨ds, t2⟩ := e
    intro hni ht hch hcon
    have hnids : NoIntro (f ds) q := hni (ds, t2) (by simp)
    rw [show glue f t ((ds, t2) :: ps) = t ++ (f ds ++ glue f t2 ps) by
      simp [glue, List.append_assoc]] at hcon
    rcases infix_append_split hcon with h | h | ⟨q1, q2, hq12, _, hq2ne, _, hq2⟩
    · exact ht h
    · rcases infix_append_split h with h2 | h2 | ⟨q1, q2, hq12, hq1ne, _, hq1, _⟩
      · exact hnids.2.2.2 h2
      · exact ih (fun e he => hni e (by simp [he])) (hch (ds, t2) (by simp))
          (fun e he => hch e (by simp [he])) h2
      · rcases hnids.2.2.1 q1 ((List.mem_tails q1 (f ds)).mpr hq1) with h3 | h3
        · exact hq1ne h3
        · exact h3 ⟨q2, hq12.symm⟩
    · have hfne : f ds ≠ [] := hnids.1
      match hq2' : q2, hq2ne with
      | c :: q2t, _ =>
        have h1 : (f ds ++ glue f t2 ps).head? = some c :=
          (headq_of_pref hq2 (by simp)).trans rfl
        rw [head?_append_left hfne] at h1
        have h2 : c ∈ q := by
          rw [hq12]
          exact List.mem_append_right q1 (List.mem_cons_self c q2t)
        exact hnids.2.1 c (mem_take_one_of_head? h1) h2

theorem replaceAll_decomp (p r : List Char) (hp : p ≠ []) (s : List Char) :
    ∃ t ps, s = glue (fun _ => p) t ps ∧ replaceAll p r s = glue (fun _ => r) t ps ∧
      ¬ p <:+: t ∧ ∀ e ∈ ps, ¬ p <:+: e.2 := by
  suffices H : ∀ (n : Nat) (s : List Char), s.length ≤ n →
      ∃ t ps, s = glue (fun _ => p) t ps ∧ replaceAll p r s = glue (fun _ => r) t ps ∧
        ¬ p <:+: t ∧ ∀ e ∈ ps, ¬ p <:+: e.2 from H s.length s (Nat.le_refl _)
  intro n
  induction n with
  | zero =>
    intro s hs
    have h0 : s = [] := List.eq_nil_of_length_eq_zero (Nat.le_zero.mp hs)
    subst h0
    exact ⟨[], [], rfl, by rw [replaceAll_nil]; rfl,
      fun hcon => hp (List.infix_nil.mp hcon), by simp⟩
  | succ n ih =>
    intro s hs
    match s with
    | [] =>
      exact ⟨[], [], rfl, by rw [replaceAll_nil]; rfl,
        fun hcon => hp (List.infix_nil.mp hcon), by simp⟩
    | c :: s =>
      have hlen : s.length ≤ n := by simpa using hs
      by_cases hc : p <+: (c :: s)
      · obtain ⟨w, hw⟩ := hc
        have hdrop : (c :: s).drop p.length = w := by
          rw [← hw, List.drop_left]
        have hwlen : w.length ≤ n := by
          have hp1 : 0 < p.length := List.length_pos.mpr hp
          have := congrArg List.length hw
          simp only [List.length_append, List.length_cons] at this
          omega
        obtain ⟨t, ps, h1, h2, h3, h4⟩ := ih w hwlen
        refine ⟨[], ([], t) :: ps, ?_, ?_, fun hcon => hp (List.infix_nil.mp hcon), ?_⟩
        · show c :: s = [] ++ p ++ glue (fun _ => p) t ps
          rw [← h1, List.nil_append, ← hw]
        · rw [replaceAll_cons, if_pos ⟨hp, List.isPrefixOf_iff_prefix.mpr ⟨w, hw⟩⟩, hdrop]
          show r ++ replaceAll p r w = [] ++ r ++ glue (fun _ => r) t ps
          rw [← h2, List.nil_append]
        · intro e he
          rcases List.mem_cons.mp he with he | he
          · subst he
            exact h3
          · exact h4 e he
      · obtain ⟨t, ps, h1, h2, h3, h4⟩ := ih s hlen
        refine ⟨c :: t, ps, ?_, ?_, ?_, h4⟩
        · rw [glue_cons_head, ← h1]
        · rw [replaceAll_cons, if_neg (fun hcon => hc (List.isPrefixOf_iff_prefix.mp hcon.2)),
            glue_cons_head, ← h2]
        · intro hcon
          rcases List.infix_cons_iff.mp hcon with h5 | h5
          · have ht : t <+: s := h1 ▸ glue_first_pref (fun _ => p) t ps
            exact hc (h5.trans (List.cons_prefix_cons.mpr ⟨rfl, ht⟩))
          · exact h3 h5

theorem takeWhile_append_of_all {p : Char → Bool} {a b : List Char} (h : ∀ c ∈ a, p c) :
    (a ++ b).takeWhile p = a ++ b.takeWhile p := by
  induction a with
  | nil => rfl
  | cons c a ih =>
    have hc : p c := h c (List.mem_cons_self c a)
    simp only [List.cons_append, List.takeWhile_cons, hc, ite_true]
    rw [ih (fun d hd => h d (List.mem_cons_of_mem c hd))]

theorem threadPat_ne_nil (mid ds : List Char) : threadPat mid ds ≠ [] := by
  simp [threadPat]

theorem threadMatch_sound {mid s ds rest : List Char}
    (h : threadMatch mid s = some (ds, rest)) :
    s = threadPat mid ds ++ rest ∧ validDs ds := by
  unfold threadMatch at h
  split at h
  · rename_i hpre
    split at h
    · rename_i hcond
      injection h with h2
      have hds : (s.drop 7).takeWhile Char.isDigit = ds := by
        have := congrArg Prod.fst h2
        simpa using this
      have hrest : ((s.drop 7).drop ((s.drop 7).takeWhile Char.isDigit).length).drop
          mid.length = rest := by
        have := congrArg Prod.snd h2
        simpa using this
      obtain ⟨w, hw⟩ := List.isPrefixOf_iff_prefix.mp hpre
      have hw7 : s.drop 7 = w := by
        rw [← hw]
        have h7 : ("THREAD_".data).length = 7 := by decide
        rw [← h7, List.drop_left]
      have hwsplit : w = ds ++ w.drop ds.length := by
        have hpref : ds <+: w := by
          rw [← hds, hw7]
          exact List.takeWhile_prefix Char.isDigit
        conv_lhs => rw [← List.take_append_drop ds.length w]
        rw [← List.prefix_iff_eq_take.mp hpref]
      obtain ⟨w2, hw2⟩ := List.isPrefixOf_iff_prefix.mp hcond.2
      have hwd : (s.drop 7).drop ((s.drop 7).takeWhile Char.isDigit).length =
          w.drop ds.length := by rw [hds, hw7]
      rw [hwd] at hw2 hrest
      have hrest2 : w.drop ds.length = mid ++ rest := by
        rw [← hw2]
        congr 1
        rw [← hrest, ← hw2, List.drop_left]
      have hwfull : w = ds ++ (mid ++ rest) := by
        rw [hwsplit, hrest2]
      constructor
      · rw [← hw, hwfull]
        simp [threadPat, List.append_assoc]
      · constructor
        · exact hds ▸ hcond.1
        · intro c hc
          rw [← hds] at hc
          exact List.mem_takeWhile_imp hc
    · exact absurd h (by simp)
  · exact absurd h (by simp)

theorem threadMatch_complete {mid ds s : List Char} (hds : validDs ds)
    (hmid : mid ≠ []) (hmidd : ∀ c ∈ mid.take 1, c.isDigit = false)
    (h : threadPat mid ds <+: s) : threadMatch mid s ≠ none := by
  obtain ⟨w, hw⟩ := h
  have hs : s = "THREAD_".data ++ (ds ++ (mid ++ w)) := by
    rw [← hw]
    simp [threadPat, List.append_assoc]
  have h7 : ("THREAD_".data).length = 7 := by decide
  have hdrop : s.drop 7 = ds ++ (mid ++ w) := by
    rw [hs, ← h7, List.drop_left]
  have htake : (s.drop 7).takeWhile Char.isDigit = ds := by
    rw [hdrop, takeWhile_append_of_all hds.2]
    match mid, hmid with
    | c :: mid2, _ =>
      have hc : c.isDigit = false := hmidd c (by simp)
      simp [List.takeWhile_cons, hc]
  have hdrop2 : (s.drop 7).drop ((s.drop 7).takeWhile Char.isDigit).length = mid ++ w := by
    rw [htake, hdrop, List.drop_left]
  unfold threadMatch
  rw [if_pos, if_pos]
  · simp
  · refine ⟨htake ▸ hds.1, ?_⟩
    rw [hdrop2]
    exact List.isPrefixOf_iff_prefix.mpr ⟨w, rfl⟩
  · exact List.isPrefixOf_iff_prefix.mpr ⟨ds ++ (mid ++ w), hs.symm⟩

theorem threadReplaceAll_decomp (mid : List Char) (rep : List Char → List Char)
    (hmid : mid ≠ []) (hmidd : ∀ c ∈ mid.take 1, c.isDigit = false) (s : List Char) :
    ∃ t ps, s = glue (threadPat mid) t ps ∧
      threadReplaceAll mid rep s = glue rep t ps ∧
      (∀ e ∈ ps, validDs e.1) ∧
      (∀ ds, validDs ds → ¬ threadPat mid ds <:+: t) ∧
      (∀ e ∈ ps, ∀ ds, validDs ds → ¬ threadPat mid ds <:+: e.2) := by
  suffices H : ∀ (n : Nat) (s : List Char), s.length ≤ n →
      ∃ t ps, s = glue (threadPat mid) t ps ∧
        threadReplaceAll mid rep s = glue rep t ps ∧
        (∀ e ∈ ps, validDs e.1) ∧
        (∀ ds, validDs ds → ¬ threadPat mid ds <:+: t) ∧
        (∀ e ∈ ps, ∀ ds, validDs ds → ¬ threadPat mid ds <:+: e.2) from
    H s.length s (Nat.le_refl _)
  intro n
  induction n with
  | zero =>
    intro s hs
    have h0 : s = [] := List.eq_nil_of_length_eq_zero (Nat.le_zero.mp hs)
    subst h0
    exact ⟨[], [], rfl, rfl, by simp,
      fun ds _ hcon => threadPat_ne_nil mid ds (List.infix_nil.mp hcon), by simp⟩
  | succ n ih =>
    intro s hs
    match s with
    | [] =>
      exact ⟨[], [], rfl, rfl, by simp,
        fun ds _ hcon => threadPat_ne_nil mid ds (List.infix_nil.mp hcon), by simp⟩
    | c :: s =>
      have hlen : s.length ≤ n := by simpa using hs
      rcases hm : threadMatch mid (c :: s) with _ | ⟨ds0, rest⟩
      · obtain ⟨t, ps, h1, h2, hval, h3, h4⟩ := ih s hlen
        refine ⟨c :: t, ps, ?_, ?_, hval, ?_, h4⟩
        · rw [glue_cons_head, ← h1]
        · rw [threadReplaceAll_cons, hm, glue_cons_head, ← h2]
        · intro ds hds hcon
          rcases List.infix_cons_iff.mp hcon with h5 | h5
          · have ht : t <+: s := h1 ▸ glue_first_pref (threadPat mid) t ps
            have h6 : threadPat mid ds <+: c :: s :=
              h5.trans (List.cons_prefix_cons.mpr ⟨rfl, ht⟩)
            exact threadMatch_complete hds hmid hmidd h6 hm
          · exact h3 ds hds h5
      · obtain ⟨heq, hval0⟩ := threadMatch_sound hm
        have hrlen : rest.length ≤ n := by
          have := threadMatch_some_length hm
          simp only [List.length_cons] at this
          omega
        obtain ⟨t, ps, h1, h2, hval, h3, h4⟩ := ih rest hrlen
        refine ⟨[], (ds0, t) :: ps, ?_, ?_, ?_,
          fun ds _ hcon => threadPat_ne_nil mid ds (List.infix_nil.mp hcon), ?_⟩
        · show c :: s = [] ++ threadPat mid ds0 ++ glue (threadPat mid) t ps
          rw [← h1, List.nil_append, ← heq]
        · rw [threadReplaceAll_cons, hm]
          show rep ds0 ++ threadReplaceAll mid rep rest = [] ++ rep ds0 ++ glue rep t ps
          rw [← h2, List.nil_append]
        · intro e he
          rcases List.mem_cons.mp he with he | he
          · subst he
            exact hval0
          · exact hval e he
        · intro e he
          rcases List.mem_cons.mp he with he | he
          · subst he
            exact h3
          · exact h4 e he

/-- Applying the rule for pattern p eliminates every occurrence of p when p
cannot overlap the replacement string r. -/
theorem replaceAll_elim {p r : List Char} (hp : p ≠ []) (hni : NoIntro r p)
    (s : List Char) : ¬ p <:+: replaceAll p r s := by
  obtain ⟨t, ps, _, h2, h3, h4⟩ := replaceAll_decomp p r hp s
  rw [h2]
  exact not_infix_glue hp (fun e _ => hni) h3 h4

/-- A literal rule introduces no occurrence of q when q cannot overlap the
replacement string. -/
theorem replaceAll_pres {p r q : List Char} (hp : p ≠ []) (hq : q ≠ [])
    (hni : NoIntro r q) {s : List Char} (hs : ¬ q <:+: s) :
    ¬ q <:+: replaceAll p r s := by
  obtain ⟨t, ps, h1, h2, _, _⟩ := replaceAll_decomp p r hp s
  rw [h2]
  apply not_infix_glue hq (fun e _ => hni)
  · intro hcon
    exact hs (h1 ▸ hcon.trans (glue_chunk_inf (fun _ => p) t ps).1)
  · intro e he hcon
    exact hs (h1 ▸ hcon.trans ((glue_chunk_inf (fun _ => p) t ps).2 e he))

theorem threadReplaceAll_elim {mid : List Char} {rep : List Char → List Char}
    (hmid : mid ≠ []) (hmidd : ∀ c ∈ mid.take 1, c.isDigit = false)
    (hni : ∀ ds2, validDs ds2 → ∀ ds, validDs ds → NoIntro (rep ds2) (threadPat mid ds))
    {ds : List Char} (hds : validDs ds) (s : List Char) :
    ¬ threadPat mid ds <:+: threadReplaceAll mid rep s := by
  obtain ⟨t, ps, _, h2, hval, h3, h4⟩ := threadReplaceAll_decomp mid rep hmid hmidd s
  rw [h2]
  exact not_infix_glue (threadPat_ne_nil mid ds)
    (fun e he => hni e.1 (hval e he) ds hds) (h3 ds hds) (fun e he => h4 e he ds hds)

theorem threadReplaceAll_pres {mid q : List Char} {rep : List Char → List Char}
    (hmid : mid ≠ []) (hmidd : ∀ c ∈ mid.take 1, c.isDigit = false) (hq : q ≠ [])
    (hni : ∀ ds, validDs ds → NoIntro (rep ds) q) {s : List Char}
    (hs : ¬ q <:+: s) : ¬ q <:+: threadReplaceAll mid rep s := by
  obtain ⟨t, ps, h1, h2, hval, _, _⟩ := threadReplaceAll_decomp mid rep hmid hmidd s
  rw [h2]
  apply not_infix_glue hq (fun e he => hni e.1 (hval e he))
  · intro hcon
    exact hs (h1 ▸ hcon.trans (glue_chunk_inf (threadPat mid) t ps).1)
  · intro e he hcon
    exact hs (h1 ▸ hcon.trans ((glue_chunk_inf (threadPat mid) t ps).2 e he))

/-- replace_all is the identity on text without an occurrence of the pattern. -/
theorem replaceAll_id {p r s : List Char} (h : ¬ p <:+: s) : replaceAll p r s = s := by
  induction s with
  | nil => exact replaceAll_nil p r
  | cons c s ih =>
    rw [replaceAll_cons, if_neg, ih (fun hcon => h (List.infix_cons_iff.mpr (Or.inr hcon)))]
    rintro ⟨_, hp2⟩
    exact h (List.infix_cons_iff.mpr (Or.inl (List.isPrefixOf_iff_prefix.mp hp2)))

theorem threadReplaceAll_id {mid s : List Char} {rep : List Char → List Char}
    (h : ∀ ds, validDs ds → ¬ threadPat mid ds <:+: s) :
    threadReplaceAll mid rep s = s := by
  induction s with
  | nil => rfl
  | cons c s ih =>
    rw [threadReplaceAll_cons]
    rcases hm : threadMatch mid (c :: s) with _ | ⟨ds, rest⟩
    · simp only
      rw [ih (fun ds hds hcon => h ds hds (List.infix_cons_iff.mpr (Or.inr hcon)))]
    · obtain ⟨heq, hval⟩ := threadMatch_sound hm
      exact absurd (show threadPat mid ds <:+: c :: s from ⟨[], rest, by rw [heq]; rfl⟩)
        (h ds hval)

theorem take_one_append {a b : List Char} (ha : a ≠ []) : (a ++ b).take 1 = a.take 1 := by
  match a with
  | [] => exact absurd rfl ha
  | c :: a => simp

theorem head?_mem {l : List Char} {c : Char} (h : l.head? = some c) : c ∈ l := by
  match l with
  | [] => simp at h
  | d :: l =>
    simp only [List.head?_cons, Option.some.injEq] at h
    subst h
    exact List.mem_cons_self d l

theorem take_one_of_head? {l : List Char} {c : Char} (h : l.head? = some c) :
    l.take 1 = [c] := by
  match l with
  | [] => simp at h
  | d :: l =>
    simp only [List.head?_cons, Option.some.injEq] at h
    subst h
    rfl

theorem noIntro_lit_tok : ∀ r ∈ litReps, ∀ q ∈ refTokens, NoIntro r q := by decide

theorem noIntro_lit_initialData : ∀ r ∈ litReps, r ≠ ("initialData: &initialData".data) →
    NoIntro r ("initialData:".data) := by decide

theorem refTokens_facts : ∀ q ∈ refTokens, q ≠ [] ∧
    (∀ c ∈ q.take 1, c.isDigit = false ∧ c ∉ ("&*thread ".data)) ∧
    '&' ∉ q ∧ '*' ∉ q := by decide

theorem litReps_threadFacts : ∀ r ∈ litReps, r ≠ [] ∧ 'T' ∉ r ∧
    ∀ c ∈ r.take 1, c ∉ ("THREAD_".data) ∧ c.isDigit = false ∧
      c ∉ ("_DEFINITION_PLACEHOLDER".data) ∧ c ∉ ("_DEREF_PLACEHOLDER".data) := by decide

theorem mem_threadRep {isDef : Bool} {ds : List Char} {c : Char}
    (hds : ∀ c2 ∈ ds, c2.isDigit) (h : c ∈ threadRep isDef ds) :
    c.isDigit ∨ c ∈ ("&*thread ".data) := by
  have hsub1 : ∀ c2 ∈ ("&thread".data), c2 ∈ ("&*thread ".data) := by decide
  have hsub2 : ∀ c2 ∈ (" thread".data), c2 ∈ ("&*thread ".data) := by decide
  have hsub3 : ∀ c2 ∈ ("*thread".data), c2 ∈ ("&*thread ".data) := by decide
  unfold threadRep at h
  split at h
  · simp only [List.mem_append] at h
    rcases h with h | h | h | h
    · exact Or.inr (hsub1 c h)
    · exact Or.inl (hds c h)
    · exact Or.inr (hsub2 c h)
    · exact Or.inl (hds c h)
  · simp only [List.mem_append] at h
    rcases h with h | h
    · exact Or.inr (hsub3 c h)
    · exact Or.inl (hds c h)

theorem mem_threadPat {c : Char} {mid ds : List Char} (h : c ∈ threadPat mid ds) :
    c ∈ ("THREAD_".data) ∨ c ∈ ds ∨ c ∈ mid := by
  simp only [threadPat, List.mem_append] at h
  rcases h with (h | h) | h
  · exact Or.inl h
  · exact Or.inr (Or.inl h)
  · exact Or.inr (Or.inr h)

theorem threadRep_ne_nil (isDef : Bool) (ds : List Char) : threadRep isDef ds ≠ [] := by
  unfold threadRep
  split <;> simp

/-- A thread-rule replacement cannot overlap q when q neither starts with a
character of the replacement alphabet nor contains an ampersand or a star. -/
theorem noIntro_threadRep {isDef : Bool} {ds q : List Char} (hds : validDs ds)
    (hq : q ≠ [])
    (hqh : ∀ c ∈ q.take 1, c.isDigit = false ∧ c ∉ ("&*thread ".data))
    (hamp : '&' ∉ q) (hstar : '*' ∉ q) : NoIntro (threadRep isDef ds) q := by
  have hqhead : ∀ {u : List Char}, u ≠ [] → u <+: q → ∃ ch, u.head? = some ch ∧
      ch ∈ q.take 1 := by
    intro u hu hpre
    match u with
    | ch :: u2 =>
      have h1 : q.head? = some ch := by
        rw [headq_of_pref hpre (by simp)]
        rfl
      exact ⟨ch, rfl, mem_take_one_of_head? h1⟩
  refine ⟨threadRep_ne_nil isDef ds, ?_, ?_, ?_⟩
  · intro c hc
    unfold threadRep at hc
    split at hc
    · rw [take_one_append (by decide)] at hc
      have : c = '&' := by
        have h1 : ("&thread".data).take 1 = ['&'] := by decide
        rw [h1] at hc
        simpa using hc
      subst this
      exact hamp
    · rw [take_one_append (by decide)] at hc
      have : c = '*' := by
        have h1 : ("*thread".data).take 1 = ['*'] := by decide
        rw [h1] at hc
        simpa using hc
      subst this
      exact hstar
  · intro u hu
    by_cases hune : u = []
    · exact Or.inl hune
    · refine Or.inr fun hpre => ?_
      obtain ⟨ch, hch1, hch2⟩ := hqhead hune hpre
      have hmem : ch ∈ threadRep isDef ds :=
        ((List.mem_tails u (threadRep isDef ds)).mp hu).subset (head?_mem hch1)
      rcases mem_threadRep hds.2 hmem with h | h
      · exact absurd h (by simp [(hqh ch hch2).1])
      · exact (hqh ch hch2).2 h
  · intro hcon
    obtain ⟨ch, hch1, hch2⟩ := hqhead hq (List.prefix_refl q)
    have hmem : ch ∈ threadRep isDef ds := hcon.subset (head?_mem hch1)
    rcases mem_threadRep hds.2 hmem with h | h
    · exact absurd h (by simp [(hqh ch hch2).1])
    · exact (hqh ch hch2).2 h

/-- A literal replacement cannot overlap a thread token when it contains no
capital T and starts outside the thread-token alphabet. -/
theorem noIntro_lit_threadPat {r mid ds : List Char} (hds : validDs ds)
    (hr : r ≠ []) (hrT : 'T' ∉ r)
    (hrh : ∀ c ∈ r.take 1, c ∉ ("THREAD_".data) ∧ c.isDigit = false ∧ c ∉ mid) :
    NoIntro r (threadPat mid ds) := by
  have hpatT : 'T' ∈ threadPat mid ds := by
    simp only [threadPat, List.mem_append]
    left; left
    decide
  have hhead : (threadPat mid ds).head? = some 'T' := by
    rw [threadPat, List.append_assoc, head?_append_left (by decide)]
    rfl
  refine ⟨hr, ?_, ?_, ?_⟩
  · intro c hc hmem
    rcases mem_threadPat hmem with h | h | h
    · exact (hrh c hc).1 h
    · exact absurd (hds.2 c h) (by simp [(hrh c hc).2.1])
    · exact (hrh c hc).2.2 h
  · intro u hu
    by_cases hune : u = []
    · exact Or.inl hune
    · refine Or.inr fun hpre => ?_
      match u, hune with
      | ch :: u2, _ =>
        have h1 : ch = 'T' := by
          have := headq_of_pref hpre (by simp)
          rw [hhead] at this
          simpa using this.symm
        subst h1
        exact hrT (((List.mem_tails _ r).mp hu).subset (List.mem_cons_self 'T' u2))
  · intro hcon
    exact hrT (hcon.subset hpatT)

theorem noIntro_threadRep_threadPat {isDef : Bool} {ds ds2 mid : List Char}
    (hds : validDs ds) (hds2 : validDs ds2)
    (hmidc : '&' ∉ mid ∧ '*' ∉ mid) :
    NoIntro (threadRep isDef ds) (threadPat mid ds2) := by
  have hhead : (threadPat mid ds2).head? = some 'T' := by
    rw [threadPat, List.append_assoc, head?_append_left (by decide)]
    rfl
  apply noIntro_threadRep hds (threadPat_ne_nil mid ds2)
  · intro c hc
    have h2 : (threadPat mid ds2).take 1 = ['T'] := take_one_of_head? hhead
    rw [h2] at hc
    have : c = 'T' := by simpa using hc
    subst this
    decide
  · intro hmem
    rcases mem_threadPat hmem with h | h | h
    · exact absurd h (by decide)
    · exact absurd (hds2.2 _ h) (by decide)
    · exact hmidc.1 h
  · intro hmem
    rcases mem_threadPat hmem with h | h | h
    · exact absurd h (by decide)
    · exact absurd (hds2.2 _ h) (by decide)
    · exact hmidc.2 h

theorem preservesFree_lit {p r q : List Char} (hp : p ≠ []) (hq : q ≠ [])
    (hni : NoIntro r q) : PreservesFree (.literalRule p r) q :=
  fun _ ht => replaceAll_pres hp hq hni ht

theorem preservesFree_self {p r : List Char} : PreservesFree (.literalRule p r) p :=
  fun t ht => by
    show ¬ p <:+: replaceAll p r t
    rw [replaceAll_id ht]
    exact ht

theorem preservesFree_thread {mid : List Char} {isDef : Bool} {q : List Char}
    (hmid : mid ≠ []) (hmidd : ∀ c ∈ mid.take 1, c.isDigit = false) (hq : q ≠ [])
    (hni : ∀ ds, validDs ds → NoIntro (threadRep isDef ds) q) :
    PreservesFree (.threadRule mid isDef) q :=
  fun _ ht => threadReplaceAll_pres hmid hmidd hq hni ht

theorem foldl_preserves {q : List Char} {l : List RRule}
    (h : ∀ ru ∈ l, PreservesFree ru q) :
    ∀ {s : List Char}, ¬ q <:+: s →
      ¬ q <:+: l.foldl (fun t ru => applyRRule ru t) s := by
  induction l with
  | nil =>
    intro s hs
    exact hs
  | cons ru l ih =>
    intro s hs
    rw [List.foldl_cons]
    exact ih (fun ru2 h2 => h ru2 (List.mem_cons_of_mem ru h2))
      (h ru (List.mem_cons_self ru l) s hs)

theorem resolveRules_free_split {q : List Char} {l1 l2 : List RRule} {ru : RRule}
    (hsplit : REGEX_PLACEHOLDER_REPLACEMENTS = l1 ++ ru :: l2)
    (helim : ∀ t, ¬ q <:+: applyRRule ru t)
    (hpres : ∀ ru2 ∈ l2, PreservesFree ru2 q) (s : List Char) :
    ¬ q <:+: resolveRules s := by
  unfold resolveRules
  rw [hsplit, List.foldl_append, List.foldl_cons]
  exact foldl_preserves hpres (helim _)

/-- Every table rule preserves absence of every reference token. -/
theorem preserves_table_tok : ∀ ru ∈ REGEX_PLACEHOLDER_REPLACEMENTS, ∀ q ∈ refTokens,
    PreservesFree ru q := by
  intro ru hru
  have hthread : ∀ (isDef : Bool) (mid : List Char), mid ≠ [] →
      (∀ c ∈ mid.take 1, c.isDigit = false) →
      ∀ q ∈ refTokens, PreservesFree (.threadRule mid isDef) q := by
    intro isDef mid h1 h2 q hq
    obtain ⟨hne, hhead, hamp, hstar⟩ := refTokens_facts q hq
    exact preservesFree_thread h1 h2 hne
      (fun ds hds => noIntro_threadRep hds hne hhead hamp hstar)
  have hlit : ∀ (p r : List Char), p ≠ [] → r ∈ litReps →
      ∀ q ∈ refTokens, PreservesFree (.literalRule p r) q := by
    intro p r hp hr q hq
    exact preservesFree_lit hp (refTokens_facts q hq).1 (noIntro_lit_tok r hr q hq)
  fin_cases hru
  · exact hlit _ _ (by decide) (by decide)
  · exact hlit _ _ (by decide) (by decide)
  · exact hlit _ _ (by decide) (by decide)
  · exact hlit _ _ (by decide) (by decide)
  · exact hlit _ _ (by decide) (by decide)
  · exact hlit _ _ (by decide) (by decide)
  · exact hlit _ _ (by decide) (by decide)
  · exact hlit _ _ (by decide) (by decide)
  · exact hlit _ _ (by decide) (by decide)
  · exact hlit _ _ (by decide) (by decide)
  · exact hlit _ _ (by decide) (by decide)
  · exact hlit _ _ (by decide) (by decide)
  · exact hlit _ _ (by decide) (by decide)
  · exact hlit _ _ (by decide) (by decide)
  · exact hthread _ _ (by decide) (by decide)
  · exact hthread _ _ (by decide) (by decide)
  · exact hlit _ _ (by decide) (by decide)
  · exact hlit _ _ (by decide) (by decide)

/-- Every table rule preserves absence of every thread token of either kind. -/
theorem preserves_table_threadPat :
    ∀ mid, (mid = ("_DEFINITION_PLACEHOLDER".data) ∨ mid = ("_DEREF_PLACEHOLDER".data)) →
    ∀ ru ∈ REGEX_PLACEHOLDER_REPLACEMENTS, ∀ ds, validDs ds →
      PreservesFree ru (threadPat mid ds) := by
  intro mid hmid ru hru ds hds
  have hmidfacts : ('&' ∉ mid ∧ '*' ∉ mid) ∧ mid ≠ [] := by
    rcases hmid with h | h <;> subst h <;> exact ⟨by decide, by decide⟩
  have hthread : ∀ (isDef : Bool) (mid2 : List Char), mid2 ≠ [] →
      (∀ c ∈ mid2.take 1, c.isDigit = false) →
      PreservesFree (.threadRule mid2 isDef) (threadPat mid ds) := by
    intro isDef mid2 h1 h2
    exact preservesFree_thread h1 h2 (threadPat_ne_nil mid ds)
      (fun ds2 hds2 => noIntro_threadRep_threadPat hds2 hds hmidfacts.1)
  have hlit : ∀ (p r : List Char), p ≠ [] → r ∈ litReps →
      PreservesFree (.literalRule p r) (threadPat mid ds) := by
    intro p r hp hr
    obtain ⟨h1, h2, h3⟩ := litReps_threadFacts r hr
    refine preservesFree_lit hp (threadPat_ne_nil mid ds)
      (noIntro_lit_threadPat hds h1 h2 ?_)
    intro c hc
    rcases hmid with h | h <;> subst h
    · exact ⟨(h3 c hc).1, (h3 c hc).2.1, (h3 c hc).2.2.1⟩
    · exact ⟨(h3 c hc).1, (h3 c hc).2.1, (h3 c hc).2.2.2⟩
  fin_cases hru
  · exact hlit _ _ (by decide) (by decide)
  · exact hlit _ _ (by decide) (by decide)
  · exact hlit _ _ (by decide) (by decide)
  · exact hlit _ _ (by decide) (by decide)
  · exact hlit _ _ (by decide) (by decide)
  · exact hlit _ _ (by decide) (by decide)
  · exact hlit _ _ (by decide) (by decide)
  · exact hlit _ _ (by decide) (by decide)
  · exact hlit _ _ (by decide) (by decide)
  · exact hlit _ _ (by decide) (by decide)
  · exact hlit _ _ (by decide) (by decide)
  · exact hlit _ _ (by decide) (by decide)
  · exact hlit _ _ (by decide) (by decide)
  · exact hlit _ _ (by decide) (by decide)
  · exact hthread _ _ (by decide) (by decide)
  · exact hthread _ _ (by decide) (by decide)
  · exact hlit _ _ (by decide) (by decide)
  · exact hlit _ _ (by decide) (by decide)

/-- Every table rule preserves absence of the text initialData-colon.  The rule
for that text itself preserves absence because replace_all of an absent
pattern is the identity. -/
theorem preserves_table_initialData : ∀ ru ∈ REGEX_PLACEHOLDER_REPLACEMENTS,
    PreservesFree ru ("initialData:".data) := by
  intro ru hru
  have hlit : ∀ (p r : List Char), p ≠ [] → r ∈ litReps →
      r ≠ ("initialData: &initialData".data) →
      PreservesFree (.literalRule p r) ("initialData:".data) := by
    intro p r hp hr hr2
    exact preservesFree_lit hp (by decide) (noIntro_lit_initialData r hr hr2)
  have hthread : ∀ (isDef : Bool) (mid2 : List Char), mid2 ≠ [] →
      (∀ c ∈ mid2.take 1, c.isDigit = false) →
      PreservesFree (.threadRule mid2 isDef) ("initialData:".data) := by
    intro isDef mid2 h1 h2
    exact preservesFree_thread h1 h2 (by decide)
      (fun ds hds => noIntro_threadRep hds (by decide) (by decide) (by decide) (by decide))
  fin_cases hru
  · exact hlit _ _ (by decide) (by decide) (by decide)
  · exact hlit _ _ (by decide) (by decide) (by decide)
  · exact hlit _ _ (by decide) (by decide) (by decide)
  · exact hlit _ _ (by decide) (by decide) (by decide)
  · exact hlit _ _ (by decide) (by decide) (by decide)
  · exact hlit _ _ (by decide) (by decide) (by decide)
  · exact hlit _ _ (by decide) (by decide) (by decide)
  · exact hlit _ _ (by decide) (by decide) (by decide)
  · exact hlit _ _ (by decide) (by decide) (by decide)
  · exact preservesFree_self
  · exact hlit _ _ (by decide) (by decide) (by decide)
  · exact hlit _ _ (by decide) (by decide) (by decide)
  · exact hlit _ _ (by decide) (by decide) (by decide)
  · exact hlit _ _ (by decide) (by decide) (by decide)
  · exact hthread _ _ (by decide) (by decide)
  · exact hthread _ _ (by decide) (by decide)
  · exact hlit _ _ (by decide) (by decide) (by decide)
  · exact hlit _ _ (by decide) (by decide) (by decide)

theorem resolveRules_free_at {q : List Char} (i : Nat)
    (hi : i < REGEX_PLACEHOLDER_REPLACEMENTS.length)
    (helim : ∀ t, ¬ q <:+: applyRRule (REGEX_PLACEHOLDER_REPLACEMENTS.get ⟨i, hi⟩) t)
    (hpres : ∀ ru2 ∈ REGEX_PLACEHOLDER_REPLACEMENTS.drop (i + 1), PreservesFree ru2 q)
    (s : List Char) : ¬ q <:+: resolveRules s := by
  refine @resolveRules_free_split q (REGEX_PLACEHOLDER_REPLACEMENTS.take i) _ _ ?_ helim hpres s
  conv_lhs => rw [← List.take_append_drop i REGEX_PLACEHOLDER_REPLACEMENTS]
  rw [List.drop_eq_getElem_cons hi]
  rfl

/-- After the substitution loop, no reference token of the table survives:
each one is eliminated by its own rule and reintroduced by no later rule.
The collection-name definition token has no rule in the table. -/
theorem resolveRules_token_free (s : List Char) :
    ∀ q ∈ refTokens, q ≠ COLLECTION_NAME_DEFINITION_PLACEHOLDER →
      ¬ q <:+: resolveRules s := by
  have hpres : ∀ (i : Nat), ∀ q ∈ refTokens,
      ∀ ru2 ∈ REGEX_PLACEHOLDER_REPLACEMENTS.drop i, PreservesFree ru2 q :=
    fun _ q hq ru2 h2 => preserves_table_tok ru2 (List.mem_of_mem_drop h2) q hq
  intro q hq hne
  fin_cases hq
  · exact resolveRules_free_at 0 (by decide)
      (replaceAll_elim (by decide) (noIntro_lit_tok _ (by decide) _ (by decide)))
      (hpres 1 _ (by decide)) s
  · exact resolveRules_free_at 1 (by decide)
      (replaceAll_elim (by decide) (noIntro_lit_tok _ (by decide) _ (by decide)))
      (hpres 2 _ (by decide)) s
  · exact resolveRules_free_at 2 (by decide)
      (replaceAll_elim (by decide) (noIntro_lit_tok _ (by decide) _ (by decide)))
      (hpres 3 _ (by decide)) s
  · exact resolveRules_free_at 3 (by decide)
      (replaceAll_elim (by decide) (noIntro_lit_tok _ (by decide) _ (by decide)))
      (hpres 4 _ (by decide)) s
  · exact resolveRules_free_at 4 (by decide)
      (replaceAll_elim (by decide) (noIntro_lit_tok _ (by decide) _ (by decide)))
      (hpres 5 _ (by decide)) s
  · exact resolveRules_free_at 5 (by decide)
      (replaceAll_elim (by decide) (noIntro_lit_tok _ (by decide) _ (by decide)))
      (hpres 6 _ (by decide)) s
  · exact resolveRules_free_at 6 (by decide)
      (replaceAll_elim (by decide) (noIntro_lit_tok _ (by decide) _ (by decide)))
      (hpres 7 _ (by decide)) s
  · exact resolveRules_free_at 7 (by decide)
      (replaceAll_elim (by decide) (noIntro_lit_tok _ (by decide) _ (by decide)))
      (hpres 8 _ (by decide)) s
  · exact absurd rfl hne
  · exact resolveRules_free_at 8 (by decide)
      (replaceAll_elim (by decide) (noIntro_lit_tok _ (by decide) _ (by decide)))
      (hpres 9 _ (by decide)) s
  · exact resolveRules_free_at 10 (by decide)
      (replaceAll_elim (by decide) (noIntro_lit_tok _ (by decide) _ (by decide)))
      (hpres 11 _ (by decide)) s
  · exact resolveRules_free_at 11 (by decide)
      (replaceAll_elim (by decide) (noIntro_lit_tok _ (by decide) _ (by decide)))
      (hpres 12 _ (by decide)) s
  · exact resolveRules_free_at 12 (by decide)
      (replaceAll_elim (by decide) (noIntro_lit_tok _ (by decide) _ (by decide)))
      (hpres 13 _ (by decide)) s
  · exact resolveRules_free_at 13 (by decide)
      (replaceAll_elim (by decide) (noIntro_lit_tok _ (by decide) _ (by decide)))
      (hpres 14 _ (by decide)) s
  · exact resolveRules_free_at 16 (by decide)
      (replaceAll_elim (by decide) (noIntro_lit_tok _ (by decide) _ (by decide)))
      (hpres 17 _ (by decide)) s
  · exact resolveRules_free_at 17 (by decide)
      (replaceAll_elim (by decide) (noIntro_lit_tok _ (by decide) _ (by decide)))
      (hpres 18 _ (by decide)) s

/-- After the substitution loop, no thread definition token survives. -/
theorem resolveRules_threadDef_free (s : List Char) : ∀ ds, validDs ds →
    ¬ threadPat ("_DEFINITION_PLACEHOLDER".data) ds <:+: resolveRules s := by
  intro ds hds
  refine resolveRules_free_at 14 (by decide) ?_ ?_ s
  · exact threadReplaceAll_elim (by decide) (by decide)
      (fun ds2 h2 ds3 h3 => noIntro_threadRep_threadPat h2 h3 (by decide)) hds
  · intro ru2 h2
    exact preserves_table_threadPat _ (Or.inl rfl) ru2 (List.mem_of_mem_drop h2) ds hds

/-- After the substitution loop, no thread dereference token survives. -/
theorem resolveRules_threadDeref_free (s : List Char) : ∀ ds, validDs ds →
    ¬ threadPat ("_DEREF_PLACEHOLDER".data) ds <:+: resolveRules s := by
  intro ds hds
  refine resolveRules_free_at 15 (by decide) ?_ ?_ s
  · exact threadReplaceAll_elim (by decide) (by decide)
      (fun ds2 h2 ds3 h3 => noIntro_threadRep_threadPat h2 h3 (by decide)) hds
  · intro ru2 h2
    exact preserves_table_threadPat _ (Or.inr rfl) ru2 (List.mem_of_mem_drop h2) ds hds

theorem resolveRules_initialData_free {s : List Char}
    (h : ¬ ("initialData:".data) <:+: s) :
    ¬ ("initialData:".data) <:+: resolveRules s := by
  unfold resolveRules
  exact foldl_preserves preserves_table_initialData h

/-- The substitution loop is the identity on text that contains no rule
pattern at all. -/
theorem resolveRules_id {t : List Char}
    (htok : ∀ q ∈ refTokens, q ≠ COLLECTION_NAME_DEFINITION_PLACEHOLDER → ¬ q <:+: t)
    (hdef : ∀ ds, validDs ds → ¬ threadPat ("_DEFINITION_PLACEHOLDER".data) ds <:+: t)
    (hderef : ∀ ds, validDs ds → ¬ threadPat ("_DEREF_PLACEHOLDER".data) ds <:+: t)
    (hinit : ¬ ("initialData:".data) <:+: t) : resolveRules t = t := by
  have hrule : ∀ ru ∈ REGEX_PLACEHOLDER_REPLACEMENTS, applyRRule ru t = t := by
    intro ru hru
    fin_cases hru
    · exact replaceAll_id (htok _ (by decide) (by decide))
    · exact replaceAll_id (htok _ (by decide) (by decide))
    · exact replaceAll_id (htok _ (by decide) (by decide))
    · exact replaceAll_id (htok _ (by decide) (by decide))
    · exact replaceAll_id (htok _ (by decide) (by decide))
    · exact replaceAll_id (htok _ (by decide) (by decide))
    · exact replaceAll_id (htok _ (by decide) (by decide))
    · exact replaceAll_id (htok _ (by decide) (by decide))
    · exact replaceAll_id (htok _ (by decide) (by decide))
    · exact replaceAll_id hinit
    · exact replaceAll_id (htok _ (by decide) (by decide))
    · exact replaceAll_id (htok _ (by decide) (by decide))
    · exact replaceAll_id (htok _ (by decide) (by decide))
    · exact replaceAll_id (htok _ (by decide) (by decide))
    · exact threadReplaceAll_id hdef
    · exact threadReplaceAll_id hderef
    · exact replaceAll_id (htok _ (by decide) (by decide))
    · exact replaceAll_id (htok _ (by decide) (by decide))
  show REGEX_PLACEHOLDER_REPLACEMENTS.foldl (fun t2 ru => applyRRule ru t2) t = t
  have hgen : ∀ (l : List RRule), (∀ ru ∈ l, applyRRule ru t = t) →
      l.foldl (fun t2 ru => applyRRule ru t2) t = t := by
    intro l hl
    induction l with
    | nil => rfl
    | cons ru l ih =>
      rw [List.foldl_cons, hl ru (List.mem_cons_self ru l)]
      exact ih (fun ru2 h2 => hl ru2 (List.mem_cons_of_mem ru h2))
  exact hgen _ hrule

/-- Applying the substitution loop twice is the same as applying it once,
provided the input has no occurrence of the text initialData-colon (the one
pattern whose replacement contains the pattern again). -/
theorem resolveRules_idem {s : List Char} (h : ¬ ("initialData:".data) <:+: s) :
    resolveRules (resolveRules s) = resolveRules s :=
  resolveRules_id (resolveRules_token_free s) (resolveRules_threadDef_free s)
    (resolveRules_threadDeref_free s) (resolveRules_initialData_free h)

theorem finalRep_facts : ∀ q ∈ refTokens, (∀ ch ∈ q.take 1, ch ∉ ("&collectionName ".data)) ∧
    ¬ q <:+: ("&collectionName ".data) := by decide

/-- The final replacement string cannot overlap q, for q a token with a head
outside the final literal text, given the benign-name conditions on c. -/
theorem noIntro_final {c q : List Char}
    (_ : q ≠ []) (hqh : ∀ ch ∈ q.take 1, ch ∉ ("&collectionName ".data))
    (hamp : '&' ∉ q)
    (hqinf : ¬ q <:+: c) (hqtails : ∀ u ∈ c.tails, u = [] ∨ ¬ u <+: q)
    (hqlit : ¬ q <:+: ("&collectionName ".data)) :
    NoIntro (("&collectionName ".data) ++ c) q := by
  refine ⟨by simp, ?_, ?_, ?_⟩
  · intro ch hch
    rw [take_one_append (by decide)] at hch
    have : ch = '&' := by
      have h1 : ("&collectionName ".data).take 1 = ['&'] := by decide
      rw [h1] at hch
      simpa using hch
    subst this
    exact hamp
  · intro u hu
    by_cases hune : u = []
    · exact Or.inl hune
    · refine Or.inr fun hpre => ?_
      rcases suffix_append_split ((List.mem_tails u _).mp hu) with h | ⟨x, hx1, hx2, hx3⟩
      · rcases hqtails u ((List.mem_tails u c).mpr h) with h2 | h2
        · exact hune h2
        · exact h2 hpre
      · match x, hx2 with
        | xc :: x2, _ =>
          have h1 : q.head? = some xc := by
            rw [headq_of_pref hpre hune, hx3]
            rfl
          have h2 : xc ∈ ("&collectionName ".data) := hx1.subset (List.mem_cons_self xc x2)
          exact hqh xc (mem_take_one_of_head? h1) h2
  · intro hcon
    rcases infix_append_split hcon with h | h | ⟨q1, q2, hq12, hq1ne, _, hq1, _⟩
    · exact hqlit h
    · exact hqinf h
    · match q1, hq1ne with
      | qc :: q12, _ =>
        have h1 : qc ∈ q.take 1 := by
          apply mem_take_one_of_head?
          rw [hq12]
          rfl
        have h2 : qc ∈ ("&collectionName ".data) :=
          hq1.subset (List.mem_cons_self qc q12)
        exact hqh qc h1 h2

/-- Resolver completeness for benign collection names: the loop plus the
final substitution leaves no reference token in any text. -/
theorem resolveFull_placeholderFree {c : List Char} (hbc : benignName c)
    (s : List Char) : placeholderFree (resolveFull c s) := by
  have hthreadfacts : ∀ (mid ds : List Char),
      validDs ds → mid = ("_DEFINITION_PLACEHOLDER".data) ∨
        mid = ("_DEREF_PLACEHOLDER".data) →
      NoIntro (("&collectionName ".data) ++ c) (threadPat mid ds) := by
    intro mid ds hds hmid
    have hpatT : 'T' ∈ threadPat mid ds := by
      simp only [threadPat, List.mem_append]
      left; left
      decide
    have hhead : (threadPat mid ds).head? = some 'T' := by
      rw [threadPat, List.append_assoc, head?_append_left (by decide)]
      rfl
    have htake : (threadPat mid ds).take 1 = ['T'] := take_one_of_head? hhead
    apply noIntro_final (threadPat_ne_nil mid ds)
    · intro ch hch
      rw [htake] at hch
      have : ch = 'T' := by simpa using hch
      subst this
      decide
    · intro hmem
      rcases mem_threadPat hmem with h | h | h
      · exact absurd h (by decide)
      · exact absurd (hds.2 _ h) (by decide)
      · rcases hmid with h2 | h2 <;> rw [h2] at h <;> exact absurd h (by decide)
    · exact fun hcon => hbc.2.1 (hcon.subset hpatT)
    · intro u hu
      by_cases hune : u = []
      · exact Or.inl hune
      · refine Or.inr fun hpre => ?_
        match u, hune with
        | uc :: u2, _ =>
          have h1 : uc = 'T' := by
            have := headq_of_pref hpre (by simp)
            rw [hhead] at this
            simpa using this.symm
          subst h1
          exact hbc.2.1 (((List.mem_tails _ c).mp hu).subset (List.mem_cons_self 'T' u2))
    · intro hcon
      exact absurd (hcon.subset hpatT) (by decide)
  constructor
  · intro q hq
    have hni : NoIntro (("&collectionName ".data) ++ c) q :=
      noIntro_final (refTokens_facts q hq).1 (finalRep_facts q hq).1
        (refTokens_facts q hq).2.2.1 (hbc.1 q hq).1 (hbc.1 q hq).2 (finalRep_facts q hq).2
    by_cases hcn : q = COLLECTION_NAME_DEFINITION_PLACEHOLDER
    · subst hcn
      exact replaceAll_elim (by decide) hni _
    · exact replaceAll_pres (by decide) (refTokens_facts q hq).1 hni
        (resolveRules_token_free s q hq hcn)
  · intro ds hds
    constructor
    · exact replaceAll_pres (by decide) (threadPat_ne_nil _ ds)
        (hthreadfacts _ ds hds (Or.inl rfl))
        (resolveRules_threadDef_free s ds hds)
    · exact replaceAll_pres (by decide) (threadPat_ne_nil _ ds)
        (hthreadfacts _ ds hds (Or.inr rfl))
        (resolveRules_threadDeref_free s ds hds)

theorem mapM_option_spec {A B : Type} (f : A → Option B) :
    ∀ {l : List A} {l2 : List B}, l.mapM f = some l2 →
      l2.length = l.length ∧ ∀ y ∈ l2, ∃ x ∈ l, f x = some y := by
  intro l
  induction l with
  | nil =>
    intro l2 h
    simp only [List.mapM_nil, pure, Option.some.injEq] at h
    subst h
    simp
  | cons a l ih =>
    intro l2 h
    rw [List.mapM_cons] at h
    match ha : f a, hl : l.mapM f with
    | some b, some bs =>
      rw [ha, hl] at h
      simp only [Option.bind_eq_bind, Option.some_bind, pure, Option.some.injEq] at h
      subst h
      obtain ⟨ih1, ih2⟩ := ih hl
      constructor
      · simp [ih1]
      · intro y hy
        rcases List.mem_cons.mp hy with hy | hy
        · exact ⟨a, List.mem_cons_self a l, hy ▸ ha⟩
        · obtain ⟨x, hx1, hx2⟩ := ih2 y hy
          exact ⟨x, List.mem_cons_of_mem a hx1, hx2⟩
    | some b, none => rw [ha, hl] at h; simp at h
    | none, _ => rw [ha] at h; simp at h

/-- Shape of a successfully converted test case: the optional fail-point
operation first, then the entity-creation operation for the fixed triple,
then the translated legacy operations. -/
theorem testFromCrudV2_spec {fuel : Nat} {old : CrudTest} {i : Nat} {t : UTest}
    (h : testFromCrudV2 fuel old i = some t) :
    ∃ observed translated, observedEvents old = some observed ∧
      old.operations.mapM (translateOp fuel i) = some translated ∧
      t.operations = (match old.fail_point with
        | some fp => [failPointOp fp]
        | none => []) ++ [tripleCreateOp observed old.client_uri] ++ translated := by
  unfold testFromCrudV2 at h
  match hobs : observedEvents old, htr : old.operations.mapM (translateOp fuel i) with
  | some observed, some translated =>
    rw [hobs, htr] at h
    simp only [Option.bind_eq_bind, Option.some_bind, pure, Option.some.injEq] at h
    refine ⟨observed, translated, rfl, rfl, ?_⟩
    rw [← h]
  | some observed, none =>
    rw [hobs, htr] at h
    simp at h
  | none, _ =>
    rw [hobs] at h
    simp at h

/-- Shape of a successfully converted file: fixture data must be the flat
shape, the file-level entity list is decided by the two pre-scan flags, and
the file-level entity and initial-data fields are always present. -/
theorem convertFile_spec {fuel : Nat} {fileName : String} {old : CrudTestFile}
    {tf : UTestFile} (h : convertFile fuel fileName old = some tf) :
    ∃ tests docs, old.tests.enum.mapM (fun p => testFromCrudV2 fuel p.2 p.1) = some tests ∧
      old.data = .single docs ∧
      tf = ⟨fileName, "1.9", old.run_on.map (fun l => l.map runOnToRequirements),
        some (if fpFlag old || adminFlag old then
            [setupClientEntity] ++ (if adminFlag old then [adminDatabaseEntity] else [])
          else []),
        some [⟨"COLLECTION_NAME_DEFINITION_PLACEHOLDER",
          "xDATABASE_NAME_DEFINITION_PLACEHOLDER", docs⟩], tests⟩ := by
  unfold convertFile at h
  match htests : old.tests.enum.mapM (fun p => testFromCrudV2 fuel p.2 p.1),
      hdata : old.data with
  | some tests, .single docs =>
    rw [htests, hdata] at h
    simp only [Option.bind_eq_bind, Option.some_bind, pure, Option.some.injEq] at h
    exact ⟨tests, docs, htests, rfl, h.symm⟩
  | some tests, .many m =>
    rw [htests, hdata] at h
    simp at h
  | none, _ =>
    rw [htests] at h
    simp at h

/-- C4 counterexample: the resolver pass is not idempotent.  On the text
initialData-colon one pass produces the anchor-bearing line, and a second
pass matches the rule pattern inside its own previous output and duplicates
the anchor. -/
theorem C4_counterexample :
    resolveRules c4Input = ("initialData: &initialData".data) ∧
    resolveRules (resolveRules c4Input) =
      ("initialData: &initialData &initialData".data) ∧
    resolveRules (resolveRules c4Input) ≠ resolveRules c4Input := by
  refine ⟨by decide, by decide, by decide⟩

/-- C4 (amended): the ordered substitution rule table, applied once more to
an already-resolved text, leaves it unchanged, provided the original text
contains no occurrence of the literal initialData-colon pattern; that one
rule re-matches inside its own replacement, every other rule eliminates its
pattern and no rule reintroduces any pattern. -/
theorem C4_amended {s : List Char} (h : ¬ ("initialData:".data) <:+: s) :
    resolveRules (resolveRules s) = resolveRules s :=
  resolveRules_idem h

/-- Witness for the amended C4 at a concrete input. -/
theorem C4_amended_witness :
    ¬ ("initialData:".data) <:+: ("id: xCLIENT_DEREF_PLACEHOLDER".data) ∧
    resolveRules (resolveRules ("id: xCLIENT_DEREF_PLACEHOLDER".data)) =
      resolveRules ("id: xCLIENT_DEREF_PLACEHOLDER".data) :=
  ⟨by decide, C4_amended (by decide)⟩

/-- C5: a legacy suite whose fixture-data field has the
mapping-of-collection-names shape makes convert abort: no unified file and
no output text are produced, whatever the serializer does. -/
theorem C5_theorem (yaml : UTestFile → List Char) (fuel : Nat) (fileName : String)
    (old : CrudTestFile) (m : List (String × List BDoc)) (hdata : old.data = .many m) :
    convertFile fuel fileName old = none ∧ convertM yaml fuel fileName old = none := by
  have h1 : convertFile fuel fileName old = none := by
    unfold convertFile
    match htests : old.tests.enum.mapM (fun p => testFromCrudV2 fuel p.2 p.1) with
    | some tests =>
      rw [htests, hdata]
      rfl
    | none =>
      rw [htests]
      rfl
  refine ⟨h1, ?_⟩
  unfold convertM
  rw [h1]
  rfl

/-- Witness for C5 at a concrete mapping-shaped suite. -/
theorem C5_witness :
    c5File.data = TestData.many [("a", [])] ∧
    (convertFile 1 "file" c5File = none ∧
      convertM (fun _ => []) 1 "file" c5File = none) :=
  ⟨rfl, C5_theorem (fun _ => []) 1 "file" c5File [("a", [])] rfl⟩

/-- C8 counterexample: translating the waitForEvent scenario keeps the
legacy object (here testRunner) as the target object; the object is not the
client reference token, which instead appears under the client key of the
rebuilt arguments. -/
theorem C8_counterexample :
    (translateOp 1 0 c8Op).map (fun o => o.object) = some "testRunner" ∧
    (translateOp 1 0 c8Op).map (fun o => o.object) ≠
      some "xCLIENT_DEREF_PLACEHOLDER" ∧
    (translateOp 1 0 c8Op).map (fun o => dlookup "client" (o.arguments.getD [])) =
      some (some (.str "xCLIENT_DEREF_PLACEHOLDER")) :=
  ⟨rfl, by decide, rfl⟩

/-- C8 (amended): the waitForEvent scenario translates to an operation still
named waitForEvent whose object is carried over from the legacy operation,
whose arguments carry the client reference token under the client key, the
canonical pool-cleared event document and count 1; an unrecognized legacy
event name is fatal. -/
theorem C8_theorem :
    (∀ fuel i, translateOp fuel i c8Op = some ⟨"waitForEvent", "testRunner",
      some [("client", .str "xCLIENT_DEREF_PLACEHOLDER"),
        ("event", .doc [("poolClearedEvent", .doc [])]), ("count", .int 1)],
      none, none, none⟩) ∧
    ∀ fuel i, translateOp fuel i c8BadOp = none := by
  refine ⟨fun fuel i => ?_, fun fuel i => ?_⟩ <;> cases fuel <;> rfl

/-- C9: the startThread scenario produces a createEntities operation on the
testRunner object introducing exactly one thread entity with scope id 0,
obtained by stripping the prefix thread from thread1, parsing the 1-based
index and subtracting one. -/
theorem C9_theorem :
    (∀ fuel i, translateOp fuel i c9Op = some ⟨"createEntities", "testRunner",
      some [("entities", .arr [.doc [("thread",
        .doc [("id", .str "THREAD_0_DEFINITION_PLACEHOLDER")])]])],
      none, none, none⟩) ∧
    threadNumber "thread1" = some 0 ∧
    ("thread1".data).drop 6 = ['1'] ∧ parseNatDigits ['1'] = some 1 := by
  refine ⟨fun fuel i => ?_, rfl, rfl, rfl⟩
  cases fuel <;> rfl

/-- C7 counterexample: a plain runCommand legacy operation without the
admin-command-name side field does not translate: the code unwraps the
field for runCommand as well, so translation panics (none). -/
theorem C7_counterexample :
    translateOp 1 0 c7Op = none ∧ c7Op.command_name = none ∧
    c7Op.name = "runCommand" :=
  ⟨rfl, rfl, rfl⟩

theorem translateOpCore_cn_irrel (recurse : CrudOperation → Option UOperation)
    (i : Nat) (op : CrudOperation) (h1 : op.name ≠ "runAdminCommand")
    (h2 : op.name ≠ "runCommand") :
    translateOpCore recurse i
        ⟨op.name, op.object, none, op.arguments, op.error, op.result⟩ =
      translateOpCore recurse i op := by
  obtain ⟨nm, ob, cn, args, err, res⟩ := op
  unfold translateOpCore
  dsimp only
  by_cases hA : nm = "waitForEvent" ∨ nm = "assertEventCount"
  · rw [if_pos hA, if_pos hA]
  · rw [if_neg hA, if_neg hA]
    by_cases hB : nm = "recordPrimary"
    · rw [if_pos hB, if_pos hB]
    · rw [if_neg hB, if_neg hB]
      by_cases hC : nm = "waitForPrimaryChange"
      · rw [if_pos hC, if_pos hC]
      · rw [if_neg hC, if_neg hC]
        by_cases hD : nm = "runAdminCommand"
        · exact absurd hD h1
        · rw [if_neg hD, if_neg hD]
          by_cases hE : nm = "runCommand"
          · exact absurd hE h2
          · rw [if_neg hE, if_neg hE]

theorem translateOpCore_runCommand (recurse : CrudOperation → Option UOperation)
    (i : Nat) (ob : String) (args : BDoc) (cn : String) :
    translateOpCore recurse i ⟨"runCommand", ob, some cn, some args, none, none⟩ =
      some ⟨"runCommand",
        (if ob = "collection" then "xCOLLECTION_DEREF_PLACEHOLDER" else ob),
        some (dinsert "commandName" (.str cn) args), none, none, none⟩ := rfl

/-- C7 (amended): the admin-command-name side field is required for both
runAdminCommand and runCommand.  For every other operation name the field is
never read, so translation is insensitive to it; for runAdminCommand the
field value is injected into the arguments under the commandName key, the
object is retargeted to the admin-database reference and the operation is
renamed runCommand; for runCommand the field value is injected the same way
with name and object kept. -/
theorem C7_amended :
    (∀ (fuel i : Nat) (op : CrudOperation),
      op.name ≠ "runAdminCommand" → op.name ≠ "runCommand" →
      translateOp fuel i ⟨op.name, op.object, none, op.arguments, op.error, op.result⟩ =
        translateOp fuel i op) ∧
    (∀ (fuel i : Nat) (ob : String) (args : BDoc) (cn : String),
      translateOp fuel i ⟨"runAdminCommand", ob, some cn, some args, none, none⟩ =
        some ⟨"runCommand", "xADMIN_DATABASE_DEREF_PLACEHOLDER",
          some (dinsert "commandName" (.str cn) args), none, none, none⟩) ∧
    ∀ (fuel i : Nat) (ob : String) (args : BDoc) (cn : String), ob ≠ "collection" →
      translateOp fuel i ⟨"runCommand", ob, some cn, some args, none, none⟩ =
        some ⟨"runCommand", ob, some (dinsert "commandName" (.str cn) args),
          none, none, none⟩ := by
  refine ⟨?_, ?_, ?_⟩
  · intro fuel i op h1 h2
    cases fuel with
    | zero => exact translateOpCore_cn_irrel (fun _ => none) i op h1 h2
    | succ n => exact translateOpCore_cn_irrel (translateOp n i) i op h1 h2
  · intro fuel i ob args cn
    cases fuel <;> rfl
  · intro fuel i ob args cn h
    cases fuel with
    | zero =>
      exact (translateOpCore_runCommand (fun _ => none) i ob args cn).trans
        (by rw [if_neg h])
    | succ n =>
      exact (translateOpCore_runCommand (translateOp n i) i ob args cn).trans
        (by rw [if_neg h])

/-- Witness for the amended C7 at concrete operations. -/
theorem C7_witness :
    (translateOp 1 0 ⟨c7PassOp.name, c7PassOp.object, none, c7PassOp.arguments,
      c7PassOp.error, c7PassOp.result⟩ = translateOp 1 0 c7PassOp) ∧
    (translateOp 1 0 ⟨"runAdminCommand", "admin", some "ping", some [], none, none⟩ =
      some ⟨"runCommand", "xADMIN_DATABASE_DEREF_PLACEHOLDER",
        some (dinsert "commandName" (.str "ping") []), none, none, none⟩) ∧
    translateOp 1 0 ⟨"runCommand", "database", some "ping", some [], none, none⟩ =
      some ⟨"runCommand", "database", some (dinsert "commandName" (.str "ping") []),
        none, none, none⟩ :=
  ⟨C7_amended.1 1 0 c7PassOp (by decide) (by decide),
   C7_amended.2.1 1 0 "admin" [] "ping",
   C7_amended.2.2 1 0 "database" [] "ping" (by decide)⟩

/-- C1 counterexample: the final collection-name substitution runs after the
rule loop and splices the raw legacy collection name into the output, so a
collection name that itself contains a reference token leaves that token in
the final output text of a successful conversion. -/
theorem C1_counterexample :
    convertM c1Yaml 1 "file" c1File =
      some ("collectionName: &collectionName xCLIENT_DEREF_PLACEHOLDER".data) ∧
    CLIENT_DEREF_PLACEHOLDER <:+:
      ("collectionName: &collectionName xCLIENT_DEREF_PLACEHOLDER".data) ∧
    CLIENT_DEREF_PLACEHOLDER ∈ refTokens :=
  ⟨by decide, by decide, by decide⟩

/-- C1 (amended): for every suite whose legacy collection name is benign (it
contains no reference token, none of its nonempty suffixes starts one, and
it contains no capital T and no dollar sign), the output text of a
successful conversion contains no reference token and no thread-family
token, whatever the serializer prints. -/
theorem C1_amended (yaml : UTestFile → List Char) (fuel : Nat) (fn : String)
    (old : CrudTestFile) (out : List Char)
    (hc : benignName old.collection_name.data)
    (h : convertM yaml fuel fn old = some out) : placeholderFree out := by
  unfold convertM at h
  rcases Option.map_eq_some'.mp h with ⟨tf, _, hout⟩
  rw [← hout]
  exact resolveFull_placeholderFree hc (yaml tf)

/-- Witness for the amended C1 at a concrete suite and serializer. -/
theorem C1_witness :
    benignName (c1WitFile.collection_name.data) ∧
    placeholderFree ("collectionName: &collectionName coll".data) :=
  ⟨by decide, C1_amended c1Yaml 1 "file" c1WitFile
    ("collectionName: &collectionName coll".data) (by decide) rfl⟩

theorem translateOp_tn_irrel : ∀ (fuel i j : Nat), translateOp fuel i = translateOp fuel j := by
  intro fuel
  induction fuel with
  | zero => intro i j; rfl
  | succ n ih =>
    intro i j
    show translateOpCore (translateOp n i) i = translateOpCore (translateOp n j) j
    rw [ih i j]
    rfl

theorem testFromCrudV2_tn_irrel (fuel : Nat) (old : CrudTest) (i j : Nat) :
    testFromCrudV2 fuel old i = testFromCrudV2 fuel old j := by
  unfold testFromCrudV2
  rw [translateOp_tn_irrel fuel i j]

theorem mem_enum_snd {A : Type} {l : List A} {p : Nat × A} (h : p ∈ l.enum) : p.2 ∈ l := by
  obtain ⟨i, x⟩ := p
  obtain ⟨-, hlt, hx⟩ := List.mem_enumFrom h
  rw [hx]
  exact List.getElem_mem _

/-- C2 counterexample: a two-test suite with no fail-point or admin-command
usage converts, but the two synthesized triples are identical operations —
the entity definition tokens carry no per-test ordinal, so distinct test
cases do not receive distinct scope ids or distinct reference names. -/
theorem C2_counterexample :
    c2File.tests.length = 2 ∧
    (convertFile 1 "f" c2File).map (fun tf => tf.tests.map UTest.operations) =
      some [[tripleCreateOp [] none], [tripleCreateOp [] none]] :=
  ⟨rfl, rfl⟩

/-- C2 (amended): conversion synthesizes one client/database/collection
triple per test case — the converted suite has as many test cases as the
legacy one and each converted case carries a triple-creation operation — but
the per-test conversion is insensitive to the ordinal position it is handed,
so every test case's triple carries the same fixed definition tokens rather
than disjoint scope ids. -/
theorem C2_amended :
    (∀ (fuel : Nat) (old : CrudTest) (i j : Nat),
      testFromCrudV2 fuel old i = testFromCrudV2 fuel old j) ∧
    ∀ (fuel : Nat) (fn : String) (old : CrudTestFile) (tf : UTestFile),
      convertFile fuel fn old = some tf →
      tf.tests.length = old.tests.length ∧
      ∀ t ∈ tf.tests, ∃ oldT ∈ old.tests, ∃ observed translated,
        observedEvents oldT = some observed ∧
        t.operations = (match oldT.fail_point with
          | some fp => [failPointOp fp]
          | none => []) ++ [tripleCreateOp observed oldT.client_uri] ++ translated := by
  refine ⟨testFromCrudV2_tn_irrel, ?_⟩
  intro fuel fn old tf h
  obtain ⟨tests, docs, htests, hdata, htf⟩ := convertFile_spec h
  obtain ⟨hlen, hmem⟩ := mapM_option_spec _ htests
  subst htf
  constructor
  · rw [hlen, List.enum_length]
  · intro t ht
    obtain ⟨p, hp, hpt⟩ := hmem t ht
    obtain ⟨observed, translated, hobs, htr, hops⟩ := testFromCrudV2_spec hpt
    exact ⟨p.2, mem_enum_snd hp, observed, translated, hobs, hops⟩

/-- Witness for the amended C2 at a concrete suite. -/
theorem C2_witness :
    (testFromCrudV2 1 (c2Test "t") 0 = testFromCrudV2 1 (c2Test "t") 7) ∧
    ((convertFile 1 "f" c2File).getD ⟨"", "", none, none, none, []⟩).tests.length =
      c2File.tests.length :=
  ⟨C2_amended.1 1 (c2Test "t") 0 7, (C2_amended.2 1 "f" c2File _ rfl).1⟩

/-- C3: on every successful conversion the file-level entity list holds the
shared setup client exactly once when some test case has a fail-point field
or a configureFailPoint or runAdminCommand operation, and never otherwise;
it holds the admin database exactly once when some test case has a
runAdminCommand operation, and never otherwise; the two conditions are the
pre-scan over all test cases' operations and fail-point fields. -/
theorem C3_theorem (fuel : Nat) (fn : String) (old : CrudTestFile) (tf : UTestFile)
    (h : convertFile fuel fn old = some tf) :
    tf.create_entities.isSome = true ∧
    ((tf.create_entities.getD []).countP isSetupClient =
      if fpFlag old || adminFlag old then 1 else 0) ∧
    ((tf.create_entities.getD []).countP isAdminDatabase =
      if adminFlag old then 1 else 0) ∧
    (fpFlag old = true ↔ ∃ t ∈ old.tests, t.fail_point.isSome = true ∨
      ∃ op ∈ t.operations, op.name = "configureFailPoint") ∧
    (adminFlag old = true ↔ ∃ t ∈ old.tests, ∃ op ∈ t.operations,
      op.name = "runAdminCommand") := by
  obtain ⟨tests, docs, htests, hdata, htf⟩ := convertFile_spec h
  subst htf
  refine ⟨rfl, ?_, ?_, ?_, ?_⟩
  · cases hfp : fpFlag old <;> cases had : adminFlag old <;> rfl
  · cases hfp : fpFlag old <;> cases had : adminFlag old <;> rfl
  · simp [fpFlag, List.any_eq_true, Bool.or_eq_true, decide_eq_true_iff]
  · simp [adminFlag, List.any_eq_true, decide_eq_true_iff]

/-- Witness for C3 at a concrete suite using both a fail point and an admin
command. -/
theorem C3_witness :
    ((convertFile 1 "f" c3File).getD ⟨"", "", none, none, none, []⟩).create_entities.isSome
        = true ∧
    ((((convertFile 1 "f" c3File).getD
        ⟨"", "", none, none, none, []⟩).create_entities.getD []).countP isSetupClient =
      if fpFlag c3File || adminFlag c3File then 1 else 0) ∧
    ((((convertFile 1 "f" c3File).getD
        ⟨"", "", none, none, none, []⟩).create_entities.getD []).countP isAdminDatabase =
      if adminFlag c3File then 1 else 0) ∧
    (fpFlag c3File = true ↔ ∃ t ∈ c3File.tests, t.fail_point.isSome = true ∨
      ∃ op ∈ t.operations, op.name = "configureFailPoint") ∧
    (adminFlag c3File = true ↔ ∃ t ∈ c3File.tests, ∃ op ∈ t.operations,
      op.name = "runAdminCommand") :=
  C3_theorem 1 "f" c3File _ rfl

/-- C6 counterexample: the test-case level of the legacy model is not
closed-schema.  A test-case document carrying a key outside the legacy test
schema still parses, both on its own and inside a whole test file. -/
theorem C6_counterexample :
    "bogusField" ∉ crudTestKeys ∧
    (parseCrudTest c6TestDoc).isSome = true ∧
    (parseCrudTestFile c6FileDoc).isSome = true :=
  ⟨by decide, rfl, rfl⟩

/-- C6 (amended): deserialization rejects unknown keys at the test-file,
operation, run-on requirement, event expectation and error descriptor
levels, but the test-case and outcome levels carry no such check and ignore
unknown keys. -/
theorem C6_amended :
    (∀ d : BDoc, (∃ kv ∈ d, kv.1 ∉ testFileKeys) → parseCrudTestFile d = none) ∧
    (∀ d : BDoc, (∃ kv ∈ d, kv.1 ∉ operationKeys) → parseOperation (.doc d) = none) ∧
    (∀ d : BDoc, (∃ kv ∈ d, kv.1 ∉ runOnKeys) → parseRunOn (.doc d) = none) ∧
    (∀ d : BDoc, (∃ kv ∈ d, kv.1 ∉ commandStartedEventKeys) →
      parseCommandStartedEvent d = none) ∧
    (∀ d : BDoc, (∃ kv ∈ d, kv.1 ∉ operationErrorKeys) →
      parseOperationError (.doc d) = none) ∧
    (parseCrudTest c6TestDoc).isSome = true ∧
    (parseCollectionOutcome (.doc [("data", .arr []), ("bogusField", .int 1)])).isSome
      = true := by
  refine ⟨?_, ?_, ?_, ?_, ?_, rfl, rfl⟩
  · intro d h
    obtain ⟨kv, hkv, hnot⟩ := h
    have hall : (d.all fun kv => kv.1 ∈ testFileKeys) = false := by
      rw [List.all_eq_false]
      exact ⟨kv, hkv, by simpa using hnot⟩
    unfold parseCrudTestFile
    rw [hall]
    rfl
  · intro d h
    obtain ⟨kv, hkv, hnot⟩ := h
    have hall : (d.all fun kv => kv.1 ∈ operationKeys) = false := by
      rw [List.all_eq_false]
      exact ⟨kv, hkv, by simpa using hnot⟩
    unfold parseOperation
    rw [show parseDoc (.doc d) = some d from rfl]
    rw [Option.bind_eq_bind, Option.some_bind, hall]
    rfl
  · intro d h
    obtain ⟨kv, hkv, hnot⟩ := h
    have hall : (d.all fun kv => kv.1 ∈ runOnKeys) = false := by
      rw [List.all_eq_false]
      exact ⟨kv, hkv, by simpa using hnot⟩
    unfold parseRunOn
    rw [show parseDoc (.doc d) = some d from rfl]
    rw [Option.bind_eq_bind, Option.some_bind, hall]
    rfl
  · intro d h
    obtain ⟨kv, hkv, hnot⟩ := h
    have hall : (d.all fun kv => kv.1 ∈ commandStartedEventKeys) = false := by
      rw [List.all_eq_false]
      exact ⟨kv, hkv, by simpa using hnot⟩
    unfold parseCommandStartedEvent
    rw [hall]
    rfl
  · intro d h
    obtain ⟨kv, hkv, hnot⟩ := h
    have hall : (d.all fun kv => kv.1 ∈ operationErrorKeys) = false := by
      rw [List.all_eq_false]
      exact ⟨kv, hkv, by simpa using hnot⟩
    unfold parseOperationError
    rw [show parseDoc (.doc d) = some d from rfl]
    rw [Option.bind_eq_bind, Option.some_bind, hall]
    rfl

/-- Witness for the amended C6 at concrete documents with an unknown key. -/
theorem C6_witness :
    parseCrudTestFile [("zz", .int 0)] = none ∧
    parseOperation (.doc [("zz", .int 0)]) = none ∧
    parseRunOn (.doc [("zz", .int 0)]) = none ∧
    parseCommandStartedEvent [("zz", .int 0)] = none ∧
    parseOperationError (.doc [("zz", .int 0)]) = none :=
  ⟨C6_amended.1 _ ⟨("zz", .int 0), List.mem_cons_self _ _, by decide⟩,
   C6_amended.2.1 _ ⟨("zz", .int 0), List.mem_cons_self _ _, by decide⟩,
   C6_amended.2.2.1 _ ⟨("zz", .int 0), List.mem_cons_self _ _, by decide⟩,
   C6_amended.2.2.2.1 _ ⟨("zz", .int 0), List.mem_cons_self _ _, by decide⟩,
   C6_amended.2.2.2.2.1 _ ⟨("zz", .int 0), List.mem_cons_self _ _, by decide⟩⟩

/-- C10 counterexample: the converted operation list does not always contain
exactly one triple-creating createEntities operation — a legacy operation
that spells out the same createEntities call passes through the fallback
branch untouched and duplicates the synthesized one. -/
theorem C10_counterexample :
    (testFromCrudV2 1 c10Test 0).map
        (fun t => t.operations.countP (beqUOperation (tripleCreateOp [] none))) =
      some 2 :=
  rfl

/-- C10 (amended): every successfully converted test case's operation list
consists of the leading fail-point operation when the legacy case has a
fail-point field, then the synthesized triple-creation operation, then the
translated legacy operations (so the triple occurs there, but a translated
legacy operation can duplicate it); and on every successful conversion the
file-level entity-creation and initial-data fields are both present. -/
theorem C10_amended :
    (∀ (fuel : Nat) (old : CrudTest) (i : Nat) (t : UTest),
      testFromCrudV2 fuel old i = some t →
      ∃ observed translated, observedEvents old = some observed ∧
        old.operations.mapM (translateOp fuel i) = some translated ∧
        t.operations = (match old.fail_point with
          | some fp => [failPointOp fp]
          | none => []) ++ [tripleCreateOp observed old.client_uri] ++ translated) ∧
    ∀ (fuel : Nat) (fn : String) (old : CrudTestFile) (tf : UTestFile),
      convertFile fuel fn old = some tf →
      tf.create_entities.isSome = true ∧ tf.initial_data.isSome = true := by
  constructor
  · intro fuel old i t h
    exact testFromCrudV2_spec h
  · intro fuel fn old tf h
    obtain ⟨tests, docs, htests, hdata, htf⟩ := convertFile_spec h
    subst htf
    exact ⟨rfl, rfl⟩

/-- Witness for the amended C10 at a concrete test case with a fail point. -/
theorem C10_witness :
    (∃ observed translated, observedEvents c10WitTest = some observed ∧
      c10WitTest.operations.mapM (translateOp 1 0) = some translated ∧
      ((testFromCrudV2 1 c10WitTest 0).getD ⟨"", none, [], none, none⟩).operations =
        (match c10WitTest.fail_point with
          | some fp => [failPointOp fp]
          | none => []) ++ [tripleCreateOp observed c10WitTest.client_uri] ++ translated) ∧
    ((convertFile 1 "f" c10WitFile).getD
        ⟨"", "", none, none, none, []⟩).create_entities.isSome = true ∧
    ((convertFile 1 "f" c10WitFile).getD
        ⟨"", "", none, none, none, []⟩).initial_data.isSome = true :=
  ⟨C10_amended.1 1 c10WitTest 0 _ rfl, C10_amended.2 1 "f" c10WitFile _ rfl⟩

end V2U
